import Mathlib

/-!
# Partitioner2 basic types and the RTED parallel runtime interface

A shallow embedding of `src/frontend/Partitioner2/BasicTypes.h` and of
`projects/RTED/ParallelRTS.h`.

* C++ `enum`s become inductive types, each with a `toNat` giving the integer the
  compiler assigns to the enumerator (declaration order, starting at zero).
* C++ settings `struct`s become structures; `size_t` and `rose_addr_t` are `Nat`,
  `std::string` and `boost::filesystem::path` are `String`, `std::vector` is `List`.
* A C++ default constructor `T::T()` becomes the constant `T.ctor`; data members that the
  member-initialiser list does not mention get the value of their own default
  constructor.
* A static factory that default-constructs a local and then assigns members is
  embedded as the same chain of record updates, in the same order.
* A `serialize` member template becomes one function over an archive that is either
  saving or loading, as the template is one text for both directions.
* The partitioning engine that consumes the settings is not part of the sources.  Its
  AddressSpace Index, CFG Store, block builder edges and fixed-point loop are modelled
  from the specification; every such definition says so in its doc comment.
-/

namespace Partitioner2

/-! ## Enumerations -/

/-- Partitioner control flow vertex types (`enum VertexType`). -/
inductive VertexType where
  | V_BASIC_BLOCK
  | V_UNDISCOVERED
  | V_INDETERMINATE
  | V_NONEXISTING
  | V_USER_DEFINED
  deriving DecidableEq, Repr, Fintype

/-- Integer value of each `VertexType` enumerator. -/
def VertexType.toNat : VertexType → Nat
  | .V_BASIC_BLOCK => 0
  | .V_UNDISCOVERED => 1
  | .V_INDETERMINATE => 2
  | .V_NONEXISTING => 3
  | .V_USER_DEFINED => 4

/-- Partitioner control flow edge types (`enum EdgeType`). -/
inductive EdgeType where
  | E_NORMAL
  | E_FUNCTION_CALL
  | E_FUNCTION_RETURN
  | E_CALL_RETURN
  | E_FUNCTION_XFER
  | E_USER_DEFINED
  deriving DecidableEq, Repr, Fintype

/-- Integer value of each `EdgeType` enumerator. -/
def EdgeType.toNat : EdgeType → Nat
  | .E_NORMAL => 0
  | .E_FUNCTION_CALL => 1
  | .E_FUNCTION_RETURN => 2
  | .E_CALL_RETURN => 3
  | .E_FUNCTION_XFER => 4
  | .E_USER_DEFINED => 5

/-- How sure are we of something (`enum Confidence`). -/
inductive Confidence where
  | ASSUMED
  | PROVED
  deriving DecidableEq, Repr, Fintype

/-- Integer value of each `Confidence` enumerator. -/
def Confidence.toNat : Confidence → Nat
  | .ASSUMED => 0
  | .PROVED => 1

/-- Organization of semantic memory (`enum SemanticMemoryParadigm`). -/
inductive SemanticMemoryParadigm where
  | LIST_BASED_MEMORY
  | MAP_BASED_MEMORY
  deriving DecidableEq, Repr, Fintype

/-- Integer value of each `SemanticMemoryParadigm` enumerator. -/
def SemanticMemoryParadigm.toNat : SemanticMemoryParadigm → Nat
  | .LIST_BASED_MEMORY => 0
  | .MAP_BASED_MEMORY => 1

/-- How the partitioner should globally treat memory (`enum MemoryDataAdjustment`). -/
inductive MemoryDataAdjustment where
  | DATA_IS_CONSTANT
  | DATA_IS_INITIALIZED
  | DATA_NO_CHANGE
  deriving DecidableEq, Repr, Fintype

/-- Integer value of each `MemoryDataAdjustment` enumerator. -/
def MemoryDataAdjustment.toNat : MemoryDataAdjustment → Nat
  | .DATA_IS_CONSTANT => 0
  | .DATA_IS_INITIALIZED => 1
  | .DATA_NO_CHANGE => 2

/-- Controls whether the function may-return analysis runs
(`enum FunctionReturnAnalysis`). -/
inductive FunctionReturnAnalysis where
  | MAYRETURN_DEFAULT_YES
  | MAYRETURN_DEFAULT_NO
  | MAYRETURN_ALWAYS_YES
  | MAYRETURN_ALWAYS_NO
  deriving DecidableEq, Repr, Fintype

/-- Integer value of each `FunctionReturnAnalysis` enumerator. -/
def FunctionReturnAnalysis.toNat : FunctionReturnAnalysis → Nat
  | .MAYRETURN_DEFAULT_YES => 0
  | .MAYRETURN_DEFAULT_NO => 1
  | .MAYRETURN_ALWAYS_YES => 2
  | .MAYRETURN_ALWAYS_NO => 3

/-! ## AstConstructionSettings -/

/-- Settings that control building the AST (`struct AstConstructionSettings`). -/
structure AstConstructionSettings where
  allowEmptyGlobalBlock : Bool
  allowFunctionWithNoBasicBlocks : Bool
  allowEmptyBasicBlocks : Bool
  copyAllInstructions : Bool
  deriving DecidableEq, Repr

/-- Default constructor `AstConstructionSettings::AstConstructionSettings()`. -/
def AstConstructionSettings.ctor : AstConstructionSettings :=
  { allowEmptyGlobalBlock := false
    allowFunctionWithNoBasicBlocks := false
    allowEmptyBasicBlocks := false
    copyAllInstructions := true }

/-- Static factory `AstConstructionSettings::strict()`: a default-constructed local
followed by four member assignments. -/
def AstConstructionSettings.strict : AstConstructionSettings :=
  let s := AstConstructionSettings.ctor
  let s := { s with allowEmptyGlobalBlock := false }
  let s := { s with allowFunctionWithNoBasicBlocks := false }
  let s := { s with allowEmptyBasicBlocks := false }
  let s := { s with copyAllInstructions := true }
  s

/-- Static factory `AstConstructionSettings::permissive()`: a default-constructed local
followed by four member assignments. -/
def AstConstructionSettings.permissive : AstConstructionSettings :=
  let s := AstConstructionSettings.ctor
  let s := { s with allowEmptyGlobalBlock := true }
  let s := { s with allowFunctionWithNoBasicBlocks := true }
  let s := { s with allowEmptyBasicBlocks := true }
  let s := { s with copyAllInstructions := true }
  s

/-! ## LoaderSettings -/

/-- Settings for loading specimens (`struct LoaderSettings`). -/
structure LoaderSettings where
  deExecuteZerosThreshold : Nat
  deExecuteZerosLeaveAtFront : Nat
  deExecuteZerosLeaveAtBack : Nat
  memoryDataAdjustment : MemoryDataAdjustment
  memoryIsExecutable : Bool
  linkObjectFiles : Bool
  linkStaticArchives : Bool
  linker : String
  deriving DecidableEq, Repr

/-- Default constructor `LoaderSettings::LoaderSettings()`, member-initialiser list
transcribed value for value. -/
def LoaderSettings.ctor : LoaderSettings :=
  { deExecuteZerosThreshold := 0
    deExecuteZerosLeaveAtFront := 16
    deExecuteZerosLeaveAtBack := 1
    memoryDataAdjustment := MemoryDataAdjustment.DATA_IS_INITIALIZED
    memoryIsExecutable := false
    linkObjectFiles := true
    linkStaticArchives := true
    linker := "ld -o %o --unresolved-symbols=ignore-all --whole-archive %f" }

/-! ## BasePartitionerSettings and PartitionerSettings -/

/-- Settings that directly control a partitioner (`struct BasePartitionerSettings`). -/
structure BasePartitionerSettings where
  usingSemantics : Bool
  checkingCallBranch : Bool
  basicBlockSemanticsAutoDrop : Bool
  deriving DecidableEq, Repr

/-- Default constructor `BasePartitionerSettings::BasePartitionerSettings()`. -/
def BasePartitionerSettings.ctor : BasePartitionerSettings :=
  { usingSemantics := false
    checkingCallBranch := false
    basicBlockSemanticsAutoDrop := true }

/-- Modelled from the spec: `AddressInterval` is declared outside the header; the data
model only says an address is an unsigned integer and a range is a set of contiguous
addresses.  An interval is either empty (`none`) or a pair of least and greatest
address; a default-constructed interval is empty. -/
abbrev AddressInterval := Option (Nat × Nat)

/-- Settings that control the engine partitioning (`struct PartitionerSettings`), data
members in declaration order. -/
structure PartitionerSettings where
  base : BasePartitionerSettings
  startingVas : List Nat
  followingGhostEdges : Bool
  discontiguousBlocks : Bool
  maxBasicBlockSize : Nat
  findingFunctionPadding : Bool
  findingDeadCode : Bool
  peScramblerDispatcherVa : Nat
  findingIntraFunctionCode : Nat
  findingIntraFunctionData : Bool
  findingInterFunctionCalls : Bool
  findingFunctionCallFunctions : Bool
  interruptVector : AddressInterval
  doingPostAnalysis : Bool
  doingPostFunctionMayReturn : Bool
  doingPostFunctionStackDelta : Bool
  doingPostCallingConvention : Bool
  doingPostFunctionNoop : Bool
  functionReturnAnalysis : FunctionReturnAnalysis
  functionReturnAnalysisMaxSorts : Nat
  findingDataFunctionPointers : Bool
  findingCodeFunctionPointers : Bool
  findingThunks : Bool
  splittingThunks : Bool
  semanticMemoryParadigm : SemanticMemoryParadigm
  namingConstants : Bool
  namingStrings : Bool
  namingSyscalls : Bool
  syscallHeader : String
  demangleNames : Bool
  deriving DecidableEq, Repr

/-- Default constructor `PartitionerSettings::PartitionerSettings()`.  The members
`base`, `startingVas`, `interruptVector` and `syscallHeader` are absent from the
member-initialiser list and are therefore default-constructed. -/
def PartitionerSettings.ctor : PartitionerSettings :=
  { base := BasePartitionerSettings.ctor
    startingVas := []
    followingGhostEdges := false
    discontiguousBlocks := true
    maxBasicBlockSize := 0
    findingFunctionPadding := true
    findingDeadCode := true
    peScramblerDispatcherVa := 0
    findingIntraFunctionCode := 10
    findingIntraFunctionData := true
    findingInterFunctionCalls := true
    findingFunctionCallFunctions := true
    interruptVector := none
    doingPostAnalysis := true
    doingPostFunctionMayReturn := true
    doingPostFunctionStackDelta := true
    doingPostCallingConvention := false
    doingPostFunctionNoop := false
    functionReturnAnalysis := FunctionReturnAnalysis.MAYRETURN_DEFAULT_YES
    functionReturnAnalysisMaxSorts := 50
    findingDataFunctionPointers := false
    findingCodeFunctionPointers := false
    findingThunks := true
    splittingThunks := false
    semanticMemoryParadigm := SemanticMemoryParadigm.LIST_BASED_MEMORY
    namingConstants := true
    namingStrings := true
    namingSyscalls := true
    syscallHeader := ""
    demangleNames := true }

/-! ## Reading the linker command template

The doc comment of `LoaderSettings::linker` speaks of two variables, `%o` and `%f`, that
occur in the command string and are not to be quoted.  The functions below make those
words checkable on a concrete string. -/

/-- Number of positions of `s` at which `pat` starts. -/
def countOccurrences (pat : List Char) : List Char → Nat
  | [] => if pat.isPrefixOf [] then 1 else 0
  | c :: t => (if pat.isPrefixOf (c :: t) then 1 else 0) + countOccurrences pat t

/-- Least position of `s` at which `pat` starts, if there is one. -/
def firstOccurrence (pat : List Char) : List Char → Option Nat
  | [] => if pat.isPrefixOf [] then some 0 else none
  | c :: t =>
    if pat.isPrefixOf (c :: t) then some 0
    else (firstOccurrence pat t).map Nat.succ

/-- Shell quote characters: double quote (34), single quote (39) and back quote (96). -/
def isQuoteChar (c : Char) : Bool :=
  c.toNat == 34 || c.toNat == 39 || c.toNat == 96

/-- The `n` characters of `s` starting at position `i` are enclosed in quotes when a
quote character occurs somewhere before them and another somewhere after them. -/
def enclosedInQuotes (s : List Char) (i n : Nat) : Bool :=
  (s.take i).any isQuoteChar && (s.drop (i + n)).any isQuoteChar

/-- The variable naming the single output file. -/
def outputVariable : List Char := ['%', 'o']

/-- The variable naming the space separated list of input files. -/
def inputVariable : List Char := ['%', 'f']

/-! ## Serialization

`serialize` is a member template over an archive type `S`; the expression `s & nvp`
writes the named value when `S` is a saving archive and reads it back into the same
member when `S` is a loading archive.  An archive is embedded as the sequence of named
values written so far (saving) or still to be read (loading), together with the trace of
names handed to `operator&`. -/

/-- Values stored in an archive.  Integers of every width and enumerators (stored by
their integer value) are `nat`; a nested class object is `obj`, the sequence of named
values its own `serialize` wrote. -/
inductive Value where
  | bool (b : Bool)
  | nat (n : Nat)
  | str (s : String)
  | natList (l : List Nat)
  | interval (i : AddressInterval)
  | obj (fields : List (String × Value))

/-- An archive: its direction (`S::is_saving::value`), the named values it holds and the
names that were handed to `operator&`, in order. -/
structure Archive where
  isSaving : Bool
  data : List (String × Value)
  visited : List String

/-- The direction flag `S::is_loading::value`. -/
def Archive.isLoading (ar : Archive) : Bool := !ar.isSaving

/-- An empty saving archive. -/
def Archive.output : Archive := { isSaving := true, data := [], visited := [] }

/-- A loading archive positioned at the start of `data`. -/
def Archive.input (data : List (String × Value)) : Archive :=
  { isSaving := false, data := data, visited := [] }

/-- Serialization code: it transforms the archive and yields a value, or fails (a
loading archive that is exhausted, or holds another name or another type of value than
the one asked for). -/
def Ser (α : Type) : Type := Archive → Option (α × Archive)

/-- Sequencing of serialization code: a Ser.fail ends it. -/
@[noinline] def Ser.bind {α β : Type} (m : Ser α) (f : α → Ser β) : Ser β := fun ar =>
  match m ar with
  | some (a, ar1) => f a ar1
  | none => none

/-- Serialization code that leaves the archive alone. -/
def Ser.pure {α : Type} (a : α) : Ser α := fun ar => some (a, ar)

/-- Serialization code that fails. -/
def Ser.fail {α : Type} : Ser α := fun _ => none

/-- The archive itself, to read its direction flags. -/
def Ser.archive : Ser Archive := fun ar => some (ar, ar)

instance : Monad Ser where
  pure := Ser.pure
  bind := Ser.bind

/-- A saving archive after `name` and `v` were written to it. -/
def Archive.write (ar : Archive) (name : String) (v : Value) : Archive :=
  { ar with data := ar.data ++ [(name, v)], visited := ar.visited ++ [name] }

/-- A loading archive gives up its first entry, which must carry `name`. -/
def Archive.read (ar : Archive) (name : String) : Option (Value × Archive) :=
  match ar.data with
  | [] => none
  | (n, w) :: rest =>
    if n = name then some (w, { ar with data := rest, visited := ar.visited ++ [name] })
    else none

/-- The expression `s & make_nvp(name, v)` on the level of stored values: a saving archive
appends `(name, v)` and leaves `v` alone, a loading archive yields the value stored under
`name`. -/
def amp (name : String) (v : Value) : Ser Value := fun ar =>
  if ar.isSaving then some (v, ar.write name v) else ar.read name

/-- The expression `s & nvp` for a `bool` member. -/
def nvpBool (name : String) (cur : Bool) : Ser Bool := do
  match ← amp name (Value.bool cur) with
  | Value.bool b => pure b
  | _ => Ser.fail

/-- The expression `s & nvp` for a `size_t` or `rose_addr_t` member. -/
def nvpNat (name : String) (cur : Nat) : Ser Nat := do
  match ← amp name (Value.nat cur) with
  | Value.nat n => pure n
  | _ => Ser.fail

/-- The expression `s & nvp` for a `std::string`. -/
def nvpString (name : String) (cur : String) : Ser String := do
  match ← amp name (Value.str cur) with
  | Value.str s => pure s
  | _ => Ser.fail

/-- The expression `s & nvp` for a `std::vector<rose_addr_t>` member. -/
def nvpNatList (name : String) (cur : List Nat) : Ser (List Nat) := do
  match ← amp name (Value.natList cur) with
  | Value.natList l => pure l
  | _ => Ser.fail

/-- The expression `s & nvp` for an `AddressInterval` member. -/
def nvpInterval (name : String) (cur : AddressInterval) : Ser AddressInterval := do
  match ← amp name (Value.interval cur) with
  | Value.interval i => pure i
  | _ => Ser.fail

/-- Enumerator of `FunctionReturnAnalysis` with a given integer value, if any. -/
def FunctionReturnAnalysis.ofNat? : Nat → Option FunctionReturnAnalysis
  | 0 => some .MAYRETURN_DEFAULT_YES
  | 1 => some .MAYRETURN_DEFAULT_NO
  | 2 => some .MAYRETURN_ALWAYS_YES
  | 3 => some .MAYRETURN_ALWAYS_NO
  | _ => none

/-- Enumerator of `SemanticMemoryParadigm` with a given integer value, if any. -/
def SemanticMemoryParadigm.ofNat? : Nat → Option SemanticMemoryParadigm
  | 0 => some .LIST_BASED_MEMORY
  | 1 => some .MAP_BASED_MEMORY
  | _ => none

/-- Enumerator of `MemoryDataAdjustment` with a given integer value, if any. -/
def MemoryDataAdjustment.ofNat? : Nat → Option MemoryDataAdjustment
  | 0 => some .DATA_IS_CONSTANT
  | 1 => some .DATA_IS_INITIALIZED
  | 2 => some .DATA_NO_CHANGE
  | _ => none

/-- The expression `s & nvp` for an enumeration member: the archive holds the integer
value.  An integer that names no enumerator has no counterpart in the embedding, so
loading it fails. -/
def nvpEnum {α : Type} (toNat : α → Nat) (ofNat? : Nat → Option α) (name : String)
    (cur : α) : Ser α := do
  match ← amp name (Value.nat (toNat cur)) with
  | Value.nat n =>
    match ofNat? n with
    | some e => pure e
    | none => Ser.fail
  | _ => Ser.fail

/-- The expression `s & nvp` for a member of class type whose own `serialize` is `ser`:
saving stores what `ser` writes for the member, loading runs `ser` on the member over the
stored values, all of which it has to consume. -/
def nvpObj {α : Type} (ser : α → Ser α) (name : String) (cur : α) : Ser α := do
  if (← Ser.archive).isSaving then
    match ser cur Archive.output with
    | some (_, sub) =>
      let _ ← amp name (Value.obj sub.data)
      pure cur
    | none => Ser.fail
  else
    match ← amp name (Value.obj []) with
    | Value.obj fields =>
      match ser cur (Archive.input fields) with
      | some (v, sub) => if sub.data.isEmpty then pure v else Ser.fail
      | none => Ser.fail
    | _ => Ser.fail

/-- Member template `BasePartitionerSettings::serialize`; the version is unused.  Each
`s & BOOST_SERIALIZATION_NVP(m)` hands member `m` to the archive under the name `m` and
leaves in `m` what the archive yields. -/
def BasePartitionerSettings.serialize (_version : Nat) (x : BasePartitionerSettings) :
    Ser BasePartitionerSettings := do
  let usingSemantics ← nvpBool "usingSemantics" x.usingSemantics
  let checkingCallBranch ← nvpBool "checkingCallBranch" x.checkingCallBranch
  let basicBlockSemanticsAutoDrop ←
    nvpBool "basicBlockSemanticsAutoDrop" x.basicBlockSemanticsAutoDrop
  pure { usingSemantics, checkingCallBranch, basicBlockSemanticsAutoDrop }

/-- The lines of `PartitionerSettings::serialize` for `findingIntraFunctionCode`: from
version 2 on the pass count itself, before that a `bool temp` that a saving archive sets
to `findingIntraFunctionCode > 0` and from which a loading archive sets the member to
`temp ? 10 : 0`.  The result is the member afterwards. -/
def PartitionerSettings.serializeFindingIntraFunctionCode (version : Nat)
    (findingIntraFunctionCode : Nat) : Ser Nat := do
  if version ≥ 2 then
    nvpNat "findingIntraFunctionCode" findingIntraFunctionCode
  else
    let temp := false
    let temp := if (← Ser.archive).isSaving then decide (findingIntraFunctionCode > 0) else temp
    let temp ← nvpBool "findingIntraFunctionCode" temp
    if (← Ser.archive).isLoading then
      pure (if temp then 10 else 0)
    else
      pure findingIntraFunctionCode

/-- The lines of `PartitionerSettings::serialize` under `if (version >= 1)`:
`namingSyscalls`, then `syscallHeader` by way of a `std::string temp` (a path is embedded
as the string it holds, so `syscallHeader.string()` and `syscallHeader = temp` are the
identity).  The result is the pair of members afterwards. -/
def PartitionerSettings.serializeSyscalls (version : Nat) (namingSyscalls : Bool)
    (syscallHeader : String) : Ser (Bool × String) := do
  if version ≥ 1 then
    let namingSyscalls ← nvpBool "namingSyscalls" namingSyscalls
    let temp := ""
    let temp := if (← Ser.archive).isSaving then syscallHeader else temp
    let temp ← nvpString "syscallHeader" temp
    if (← Ser.archive).isLoading then
      pure (namingSyscalls, temp)
    else
      pure (namingSyscalls, syscallHeader)
  else
    pure (namingSyscalls, syscallHeader)

/-- Member template `PartitionerSettings::serialize`, statement for statement and in the
order of the source.  Every member is handed to the archive at most once, so the object
afterwards is assembled from the members afterwards. -/
def PartitionerSettings.serialize (version : Nat) (x : PartitionerSettings) :
    Ser PartitionerSettings := do
  let base ← nvpObj (BasePartitionerSettings.serialize 0) "base" x.base
  let startingVas ← nvpNatList "startingVas" x.startingVas
  let followingGhostEdges ← nvpBool "followingGhostEdges" x.followingGhostEdges
  let discontiguousBlocks ← nvpBool "discontiguousBlocks" x.discontiguousBlocks
  let maxBasicBlockSize ← nvpNat "maxBasicBlockSize" x.maxBasicBlockSize
  let findingFunctionPadding ← nvpBool "findingFunctionPadding" x.findingFunctionPadding
  let findingDeadCode ← nvpBool "findingDeadCode" x.findingDeadCode
  let peScramblerDispatcherVa ← nvpNat "peScramblerDispatcherVa" x.peScramblerDispatcherVa
  let findingIntraFunctionCode ←
    PartitionerSettings.serializeFindingIntraFunctionCode version x.findingIntraFunctionCode
  let findingIntraFunctionData ←
    nvpBool "findingIntraFunctionData" x.findingIntraFunctionData
  let findingInterFunctionCalls ←
    nvpBool "findingInterFunctionCalls" x.findingInterFunctionCalls
  let findingFunctionCallFunctions ←
    if version ≥ 4 then
      nvpBool "findingFunctionCallFunctions" x.findingFunctionCallFunctions
    else
      pure x.findingFunctionCallFunctions
  let interruptVector ← nvpInterval "interruptVector" x.interruptVector
  let doingPostAnalysis ← nvpBool "doingPostAnalysis" x.doingPostAnalysis
  let doingPostFunctionMayReturn ←
    nvpBool "doingPostFunctionMayReturn" x.doingPostFunctionMayReturn
  let doingPostFunctionStackDelta ←
    nvpBool "doingPostFunctionStackDelta" x.doingPostFunctionStackDelta
  let doingPostCallingConvention ←
    nvpBool "doingPostCallingConvention" x.doingPostCallingConvention
  let doingPostFunctionNoop ← nvpBool "doingPostFunctionNoop" x.doingPostFunctionNoop
  let functionReturnAnalysis ←
    nvpEnum FunctionReturnAnalysis.toNat FunctionReturnAnalysis.ofNat?
      "functionReturnAnalysis" x.functionReturnAnalysis
  let functionReturnAnalysisMaxSorts ←
    if version ≥ 3 then
      nvpNat "functionReturnAnalysisMaxSorts" x.functionReturnAnalysisMaxSorts
    else
      pure x.functionReturnAnalysisMaxSorts
  let findingDataFunctionPointers ←
    nvpBool "findingDataFunctionPointers" x.findingDataFunctionPointers
  let findingCodeFunctionPointers ←
    nvpBool "findingCodeFunctionPointers" x.findingCodeFunctionPointers
  let findingThunks ← nvpBool "findingThunks" x.findingThunks
  let splittingThunks ← nvpBool "splittingThunks" x.splittingThunks
  let semanticMemoryParadigm ←
    nvpEnum SemanticMemoryParadigm.toNat SemanticMemoryParadigm.ofNat?
      "semanticMemoryParadigm" x.semanticMemoryParadigm
  let namingConstants ← nvpBool "namingConstants" x.namingConstants
  let namingStrings ← nvpBool "namingStrings" x.namingStrings
  let demangleNames ← nvpBool "demangleNames" x.demangleNames
  let (namingSyscalls, syscallHeader) ←
    PartitionerSettings.serializeSyscalls version x.namingSyscalls x.syscallHeader
  pure { base, startingVas, followingGhostEdges, discontiguousBlocks, maxBasicBlockSize,
         findingFunctionPadding, findingDeadCode, peScramblerDispatcherVa,
         findingIntraFunctionCode, findingIntraFunctionData, findingInterFunctionCalls,
         findingFunctionCallFunctions, interruptVector, doingPostAnalysis,
         doingPostFunctionMayReturn, doingPostFunctionStackDelta,
         doingPostCallingConvention, doingPostFunctionNoop, functionReturnAnalysis,
         functionReturnAnalysisMaxSorts, findingDataFunctionPointers,
         findingCodeFunctionPointers, findingThunks, splittingThunks,
         semanticMemoryParadigm, namingConstants, namingStrings, namingSyscalls,
         syscallHeader, demangleNames }

/-- The class version declared by `BOOST_CLASS_VERSION(PartitionerSettings, 4)`. -/
def PartitionerSettings.classVersion : Nat := 4

/-- Saving `x` into an empty archive at a given version: the archive written. -/
def PartitionerSettings.save (version : Nat) (x : PartitionerSettings) : Option Archive :=
  (PartitionerSettings.serialize version x Archive.output).map Prod.snd

/-- Loading the named values `data` at a given version into the object `target`: the
object afterwards and the archive afterwards. -/
def PartitionerSettings.load (version : Nat) (data : List (String × Value))
    (target : PartitionerSettings) : Option (PartitionerSettings × Archive) :=
  PartitionerSettings.serialize version target (Archive.input data)

/-- Saving `x` and loading what was written into `target`, both at the same version. -/
def PartitionerSettings.roundTrip (version : Nat) (target x : PartitionerSettings) :
    Option PartitionerSettings :=
  match PartitionerSettings.save version x with
  | some ar => (PartitionerSettings.load version ar.data target).map Prod.fst
  | none => none

end Partitioner2

namespace RTED

/-! ## ParallelRTS.h without UPC

When `WITH_UPC` is not defined the header defines the six interface functions itself, as
`static inline` functions.  A `void` function is embedded as a computation `StateM σ Unit`
over the program state `σ`; the argument types come from headers outside this
development and are type parameters. -/

/-- The macro `UNUSEDARG(X)`, that is `((void) &(X))`: the address of the parameter is
taken and discarded. -/
def UNUSEDARG {σ α : Type} (_x : α) : StateM σ Unit := pure ()

/-- The function `rted_ProcessMsg(void)`, body `{}`. -/
def rted_ProcessMsg {σ : Type} : StateM σ Unit := pure ()

/-- The function `snd_FreeMemory(rted_Address r, rted_AllocKind a, rted_SourceInfo s)`. -/
def snd_FreeMemory {σ rted_Address rted_AllocKind rted_SourceInfo : Type}
    (r : rted_Address) (a : rted_AllocKind) (s : rted_SourceInfo) : StateM σ Unit := do
  UNUSEDARG r
  UNUSEDARG a
  UNUSEDARG s

/-- The function `snd_CreateHeapPtr` with its nine parameters. -/
def snd_CreateHeapPtr
    {σ rted_TypeDesc rted_Address rted_AddressDesc rted_AllocKind rted_SourceInfo : Type}
    (td : rted_TypeDesc) (addr : rted_Address) (haddr : rted_Address)
    (hdesc : rted_AddressDesc) (sz : Nat) (mallocsz : Nat) (ak : rted_AllocKind)
    (cn : String) (si : rted_SourceInfo) : StateM σ Unit := do
  UNUSEDARG td
  UNUSEDARG addr
  UNUSEDARG haddr
  UNUSEDARG hdesc
  UNUSEDARG sz
  UNUSEDARG mallocsz
  UNUSEDARG ak
  UNUSEDARG cn
  UNUSEDARG si

/-- The function `snd_InitVariable` with its eight parameters. -/
def snd_InitVariable
    {σ rted_TypeDesc rted_Address rted_AddressDesc rted_SourceInfo : Type}
    (td : rted_TypeDesc) (addr : rted_Address) (haddr : rted_Address)
    (hdesc : rted_AddressDesc) (sz : Nat) (pm : Int) (cn : String)
    (si : rted_SourceInfo) : StateM σ Unit := do
  UNUSEDARG td
  UNUSEDARG addr
  UNUSEDARG haddr
  UNUSEDARG hdesc
  UNUSEDARG sz
  UNUSEDARG pm
  UNUSEDARG cn
  UNUSEDARG si

/-- The function `snd_MovePointer` with its six parameters. -/
def snd_MovePointer
    {σ rted_TypeDesc rted_Address rted_AddressDesc rted_SourceInfo : Type}
    (td : rted_TypeDesc) (addr : rted_Address) (haddr : rted_Address)
    (hdesc : rted_AddressDesc) (cn : String) (si : rted_SourceInfo) : StateM σ Unit := do
  UNUSEDARG td
  UNUSEDARG addr
  UNUSEDARG haddr
  UNUSEDARG hdesc
  UNUSEDARG cn
  UNUSEDARG si

/-- The function `rted_UpcAllInitialize(void)`, body `{}`. -/
def rted_UpcAllInitialize {σ : Type} : StateM σ Unit := pure ()

end RTED

namespace Partitioner2

/-! ## AddressSpace Index

The engine behind the settings of `BasicTypes.h` is described by the specification only.
The definitions of this section follow its sections 2, 3 and 4.1. -/

/-- Modelled from the spec: an Address, "an unsigned integer in the target's address
space".  The engine's own address type is missing from the sources. -/
abbrev Address := Nat

/-- Modelled from the spec: an address range, missing from the sources; the closed
interval from `least` to `greatest`, empty when `greatest < least`. -/
structure AddressRange where
  least : Nat
  greatest : Nat
  deriving DecidableEq, Repr

/-- Modelled from the spec: membership of an address in a range, missing from the
sources. -/
def AddressRange.contains (r : AddressRange) (a : Nat) : Bool :=
  decide (r.least ≤ a) && decide (a ≤ r.greatest)

/-- Modelled from the spec: two ranges overlap when they share an address, missing from
the sources. -/
def AddressRange.overlaps (r s : AddressRange) : Bool :=
  decide (max r.least s.least ≤ min r.greatest s.greatest)

/-- Modelled from the spec: what is left of range `r` once the addresses of `s` are taken
out, as at most two ranges; missing from the sources and needed by `release(range)`. -/
def AddressRange.minus (r s : AddressRange) : List AddressRange :=
  if s.greatest < s.least then [r]
  else
    (if r.least < s.least then [⟨r.least, min r.greatest (s.least - 1)⟩] else []) ++
    (if s.greatest < r.greatest then [⟨max r.least (s.greatest + 1), r.greatest⟩] else [])

/-- Modelled from the spec: the result of `claim(range, owner)`, which is
`Ok | Conflict(existingOwner)`; missing from the sources. -/
inductive ClaimResult (Owner : Type) where
  | Ok
  | Conflict (existingOwner : Owner)
  deriving DecidableEq, Repr

/-- Modelled from the spec: the AddressSpace Index, an "interval-indexed store mapping
address ranges to the object that currently owns them"; missing from the sources.  The
store is the list of its (range, owner) entries, the latest claim first. -/
structure AddressSpaceIndex (Owner : Type) where
  entries : List (AddressRange × Owner)
  deriving Repr

/-- Modelled from the spec: the index of a partitioning run that has claimed nothing yet;
missing from the sources. -/
def AddressSpaceIndex.empty {Owner : Type} : AddressSpaceIndex Owner := ⟨[]⟩

/-- Modelled from the spec: `ownerAt(addr) -> Owner | None`, missing from the sources: the
owner of the first entry whose range holds the address. -/
def AddressSpaceIndex.ownerAt {Owner : Type} (idx : AddressSpaceIndex Owner)
    (addr : Address) : Option Owner :=
  (idx.entries.find? (fun e => e.1.contains addr)).map Prod.snd

/-- Modelled from the spec: `claim(range, owner) -> Ok | Conflict(existingOwner)`, missing
from the sources.  "The index itself never silently overwrites": when an entry overlaps
the range the index is returned as it was, with the owner of the first such entry;
otherwise the range is entered for the owner. -/
def AddressSpaceIndex.claim {Owner : Type} (idx : AddressSpaceIndex Owner)
    (range : AddressRange) (owner : Owner) : ClaimResult Owner × AddressSpaceIndex Owner :=
  match idx.entries.find? (fun e => e.1.overlaps range) with
  | some e => (ClaimResult.Conflict e.2, idx)
  | none => (ClaimResult.Ok, ⟨(range, owner) :: idx.entries⟩)

/-- Modelled from the spec: `release(range)`, missing from the sources: every address of
the range loses its owner, the other addresses keep theirs. -/
def AddressSpaceIndex.release {Owner : Type} (idx : AddressSpaceIndex Owner)
    (range : AddressRange) : AddressSpaceIndex Owner :=
  ⟨idx.entries.flatMap (fun e => (e.1.minus range).map (fun piece => (piece, e.2)))⟩

/-- Modelled from the spec: the two operations through which the partitioning engine
changes the index ("callers must resolve conflicts explicitly", which they do by further
claims and releases); missing from the sources. -/
inductive IndexOp (Owner : Type) where
  | claim (range : AddressRange) (owner : Owner)
  | release (range : AddressRange)
  deriving Repr

/-- Modelled from the spec: the index after one operation of the engine, missing from the
sources. -/
def AddressSpaceIndex.step {Owner : Type} (idx : AddressSpaceIndex Owner) :
    IndexOp Owner → AddressSpaceIndex Owner
  | IndexOp.claim range owner => (idx.claim range owner).2
  | IndexOp.release range => idx.release range

/-- Modelled from the spec: the index of the graph that a partitioning run arrives at,
the run being the sequence of claims and releases the driver issued from the empty
index; missing from the sources. -/
def AddressSpaceIndex.run {Owner : Type} (ops : List (IndexOp Owner)) :
    AddressSpaceIndex Owner :=
  ops.foldl AddressSpaceIndex.step AddressSpaceIndex.empty

/-- Modelled from the spec: the address ranges of a basic block in the graph, which are
the ranges the index holds for it; missing from the sources. -/
def AddressSpaceIndex.rangesOf {Owner : Type} [DecidableEq Owner]
    (idx : AddressSpaceIndex Owner) (block : Owner) : List AddressRange :=
  (idx.entries.filter (fun e => decide (e.2 = block))).map Prod.fst

/-- Entries of an index that share no address, pair by pair. -/
def EntriesApart {Owner : Type} (idx : AddressSpaceIndex Owner) : Prop :=
  idx.entries.Pairwise (fun e f => e.1.overlaps f.1 = false)

/-! ## Heuristic passes and the fixed-point loop

Section 4.4 of the specification.  The graph state, the seeds and the mutations are
type parameters: the loop does not look inside them. -/

/-- Modelled from the spec: a heuristic pass, "`run(graphState) -> (newSeeds,
mutations)`"; missing from the sources. -/
structure Pass (G Seed Mutation : Type) where
  run : G → List Seed × List Mutation

/-- Modelled from the spec: the partitioning driver's configuration of the loop, missing
from the sources: the passes in their "fixed declared order", how the driver carries out
a proposed seed and a proposed mutation, and the "configured max-rounds limit". -/
structure Driver (G Seed Mutation : Type) where
  passes : List (Pass G Seed Mutation)
  applySeed : G → Seed → G
  applyMutation : G → Mutation → G
  maxRounds : Nat

/-- Modelled from the spec: the outcome of one partitioning round, missing from the
sources: the graph afterwards and everything the passes produced. -/
structure RoundResult (G Seed Mutation : Type) where
  graph : G
  newSeeds : List Seed
  mutations : List Mutation

/-- Modelled from the spec: the passes `ps` run one after the other, each on the graph the
earlier ones left, the driver carrying out what each pass returns; missing from the
sources. -/
def Driver.runPasses {G Seed Mutation : Type} (d : Driver G Seed Mutation) :
    List (Pass G Seed Mutation) → RoundResult G Seed Mutation →
    RoundResult G Seed Mutation
  | [], acc => acc
  | p :: ps, acc =>
    let out := p.run acc.graph
    d.runPasses ps
      { graph := out.2.foldl d.applyMutation (out.1.foldl d.applySeed acc.graph)
        newSeeds := acc.newSeeds ++ out.1
        mutations := acc.mutations ++ out.2 }

/-- Modelled from the spec: one partitioning round, every pass "applied in a fixed declared
order"; missing from the sources. -/
def Driver.round {G Seed Mutation : Type} (d : Driver G Seed Mutation) (g : G) :
    RoundResult G Seed Mutation :=
  d.runPasses d.passes { graph := g, newSeeds := [], mutations := [] }

/-- Modelled from the spec: how the loop ends, missing from the sources: at a fixed point,
or with the warning `NotConverged` and the graph reached so far. -/
inductive LoopResult (G : Type) where
  | Converged (graph : G)
  | NotConverged (graph : G)
  deriving DecidableEq, Repr

/-- Modelled from the spec: rounds are "re-run until no pass produces new seeds/mutations
(fixed point) or a configured max-rounds limit is hit"; missing from the sources. -/
def Driver.fixedPoint {G Seed Mutation : Type} (d : Driver G Seed Mutation) :
    Nat → G → LoopResult G
  | 0, g => LoopResult.NotConverged g
  | n + 1, g =>
    let r := d.round g
    if r.newSeeds.isEmpty && r.mutations.isEmpty then LoopResult.Converged r.graph
    else d.fixedPoint n r.graph

/-- Modelled from the spec: the fixed-point loop under the driver's configuration, missing
from the sources. -/
def Driver.loop {G Seed Mutation : Type} (d : Driver G Seed Mutation) (g : G) :
    LoopResult G :=
  d.fixedPoint d.maxRounds g

/-- A driver on graphs that are plain counters, with one pass that proposes the mutation
"add one" as long as the counter is below 3. -/
def countingDriver : Driver Nat Unit Nat :=
  { passes := [⟨fun g => if g < 3 then ([], [1]) else ([], [])⟩]
    applySeed := fun g _ => g
    applyMutation := fun g m => g + m
    maxRounds := 5 }

/-! ## CFG Store and the edges a basic block gives rise to

Sections 2, 3, 4.2 and 6 of the specification. -/

/-- Modelled from the spec: a Vertex, the "tagged union: `BasicBlockPlaceholder(addr)`,
`Undiscovered`, `Indeterminate`, `NonExisting`, `UserDefined(id)`"; missing from the
sources, which only have the tag `VertexType`. -/
inductive Vertex where
  | BasicBlockPlaceholder (addr : Address)
  | Undiscovered
  | Indeterminate
  | NonExisting
  | UserDefined (id : Nat)
  deriving DecidableEq, Repr

/-- Modelled from the spec: the tag of a vertex among the enumerators of `VertexType`. -/
def Vertex.type : Vertex → VertexType
  | Vertex.BasicBlockPlaceholder _ => VertexType.V_BASIC_BLOCK
  | Vertex.Undiscovered => VertexType.V_UNDISCOVERED
  | Vertex.Indeterminate => VertexType.V_INDETERMINATE
  | Vertex.NonExisting => VertexType.V_NONEXISTING
  | Vertex.UserDefined _ => VertexType.V_USER_DEFINED

/-- Modelled from the spec: an Edge, "(source vertex, target vertex, kind, confidence)";
missing from the sources, which only have `EdgeType` and `Confidence`. -/
structure Edge where
  source : Vertex
  target : Vertex
  kind : EdgeType
  confidence : Confidence
  deriving DecidableEq, Repr

/-- Modelled from the spec: the control-flow classification of an instruction,
"fall-through / unconditional-branch / conditional-branch / call / return / other";
missing from the sources. -/
inductive InstructionClass where
  | FallThrough
  | UnconditionalBranch
  | ConditionalBranch
  | Call
  | Return
  | Other
  deriving DecidableEq, Repr

/-- Modelled from the spec: an Instruction, "address, byte length" and its control-flow
classification; missing from the sources. -/
structure Instruction where
  address : Address
  length : Nat
  cls : InstructionClass
  deriving DecidableEq, Repr

/-- Modelled from the spec: the semantics engine, "`resolveTarget(branchInstr, preState)
-> Address | Indeterminate`; `isReachable(edge) -> bool | Unknown`"; missing from the
sources.  `none` stands for `Indeterminate` and for `Unknown`; the pre-state is the
engine's own. -/
structure SemanticsEngine where
  resolveTarget : Instruction → Option Address
  isReachable : Vertex → Vertex → EdgeType → Option Bool

/-- Modelled from the spec: the semantics engine removed, "treat every query as
`Unknown`"; missing from the sources. -/
def SemanticsEngine.removed : SemanticsEngine :=
  { resolveTarget := fun _ => none
    isReachable := fun _ _ _ => none }

/-- Modelled from the spec: the engine the partitioner puts its queries to, which is the
semantics engine only when the setting `usingSemantics` is on; missing from the
sources. -/
def SemanticsEngine.consulted (settings : PartitionerSettings) (sem : SemanticsEngine) :
    SemanticsEngine :=
  if settings.base.usingSemantics then sem else SemanticsEngine.removed

/-- Modelled from the spec: the vertex an edge goes to, "the resolved target or
`Indeterminate` if unresolvable"; missing from the sources. -/
def targetVertex : Option Address → Vertex
  | some addr => Vertex.BasicBlockPlaceholder addr
  | none => Vertex.Indeterminate

/-- Modelled from the spec: a newly created edge, which "starts at confidence
`Assumed`"; missing from the sources. -/
def Edge.create (source target : Vertex) (kind : EdgeType) : Edge :=
  { source := source, target := target, kind := kind, confidence := Confidence.ASSUMED }

/-- Modelled from the spec: the two "singleton sentinels" among the vertices; missing
from the sources. -/
def Vertex.isSentinel : Vertex → Bool
  | Vertex.Undiscovered => true
  | Vertex.Indeterminate => true
  | _ => false

/-- Modelled from the spec: of the two edges of a conditional branch, `e` is a ghost edge
to suppress "if semantics prove one path unreachable and ghost-edge-following is
disabled": the engine answers that the path of `e` is not reachable and does not answer
so for the `other` path.  An edge whose target is not resolved is never suppressed, since
"all unresolved/ambiguous edges route through" the sentinels "rather than being
dropped".  Missing from the sources. -/
def suppressesGhost (settings : PartitionerSettings) (sem : SemanticsEngine)
    (e other : Edge) : Bool :=
  !settings.followingGhostEdges && !e.target.isSentinel &&
    (sem.isReachable e.source e.target e.kind == some false) &&
    !(sem.isReachable other.source other.target other.kind == some false)

/-- Modelled from the spec: the successor edges of a block, "derived per
terminal-instruction class": one `Normal` edge for an unconditional branch; two `Normal`
edges (taken and fall-through) for a conditional branch, less a suppressed ghost edge; a
`FunctionCall` edge and a `CallReturn` edge to the fall-through address for a call; a
`FunctionReturn` edge to `Indeterminate` for a return; and for a block that ends without
a control transfer a `Normal` edge to the fall-through address.  Missing from the
sources. -/
def successorEdges (settings : PartitionerSettings) (sem : SemanticsEngine)
    (source : Vertex) (terminal : Instruction) : List Edge :=
  let fallThrough := Vertex.BasicBlockPlaceholder (terminal.address + terminal.length)
  let target := targetVertex (sem.resolveTarget terminal)
  match terminal.cls with
  | InstructionClass.UnconditionalBranch =>
    [Edge.create source target EdgeType.E_NORMAL]
  | InstructionClass.ConditionalBranch =>
    let taken := Edge.create source target EdgeType.E_NORMAL
    let fall := Edge.create source fallThrough EdgeType.E_NORMAL
    (if suppressesGhost settings sem taken fall then [] else [taken]) ++
      (if suppressesGhost settings sem fall taken then [] else [fall])
  | InstructionClass.Call =>
    [Edge.create source target EdgeType.E_FUNCTION_CALL,
      Edge.create source fallThrough EdgeType.E_CALL_RETURN]
  | InstructionClass.Return =>
    [Edge.create source Vertex.Indeterminate EdgeType.E_FUNCTION_RETURN]
  | InstructionClass.FallThrough =>
    [Edge.create source fallThrough EdgeType.E_NORMAL]
  | InstructionClass.Other =>
    [Edge.create source fallThrough EdgeType.E_NORMAL]

/-- Modelled from the spec: an edge is "promoted to `Proved` only when a semantics-backed
check confirms it"; missing from the sources. -/
def Edge.check (sem : SemanticsEngine) (e : Edge) : Edge :=
  if sem.isReachable e.source e.target e.kind = some true then
    { e with confidence := Confidence.PROVED }
  else e

/-- Modelled from the spec: an edge whose target vertex `v` leaves the graph is routed to
the `Undiscovered` vertex "rather than being dropped"; the routed edge is a created edge
and starts `Assumed`.  Missing from the sources. -/
def Edge.reroute (v : Vertex) (e : Edge) : Edge :=
  if e.target = v then Edge.create e.source Vertex.Undiscovered e.kind else e

/-- Modelled from the spec: the CFG Store, a graph of vertices and edges with parallel
edges kept, together with the basic blocks attached so far, each by its entry address
and terminal instruction; missing from the sources. -/
structure ControlFlowGraph where
  vertices : List Vertex
  edges : List Edge
  blocks : List (Address × Instruction)
  deriving Repr

/-- Modelled from the spec: the graph a partitioning run starts from, holding the two
"singleton sentinels" and nothing else; missing from the sources. -/
def ControlFlowGraph.empty : ControlFlowGraph :=
  { vertices := [Vertex.Undiscovered, Vertex.Indeterminate], edges := [], blocks := [] }

/-- Modelled from the spec: a vertex enters the graph unless it is there already;
missing from the sources. -/
def ControlFlowGraph.insertVertex (g : ControlFlowGraph) (v : Vertex) : ControlFlowGraph :=
  if v ∈ g.vertices then g else { g with vertices := v :: g.vertices }

/-- Modelled from the spec: an edge enters the graph together with its end points;
missing from the sources. -/
def ControlFlowGraph.insertEdge (g : ControlFlowGraph) (e : Edge) : ControlFlowGraph :=
  let g := (g.insertVertex e.source).insertVertex e.target
  { g with edges := e :: g.edges }

/-- Modelled from the spec: a built block is attached at its entry address with the
successor edges `es` of its terminal instruction; an address that has a block attached
keeps it until the block is removed.  Missing from the sources. -/
def ControlFlowGraph.attachBlock (g : ControlFlowGraph) (addr : Address)
    (terminal : Instruction) (es : List Edge) : ControlFlowGraph :=
  if g.blocks.any (fun b => decide (b.1 = addr)) then g
  else
    let g1 := es.foldl ControlFlowGraph.insertEdge
      (g.insertVertex (Vertex.BasicBlockPlaceholder addr))
    { g1 with blocks := (addr, terminal) :: g1.blocks }

/-- Modelled from the spec: explicit removal of a basic block: its vertex and its own
successor edges leave the graph, and the edges that other blocks have to it are routed
to `Undiscovered`.  Missing from the sources. -/
def ControlFlowGraph.eraseBlock (g : ControlFlowGraph) (addr : Address) :
    ControlFlowGraph :=
  let v := Vertex.BasicBlockPlaceholder addr
  { vertices := g.vertices.filter (fun w => decide (w ≠ v))
    edges := (g.edges.filter (fun e => decide (e.source ≠ v))).map (Edge.reroute v)
    blocks := g.blocks.filter (fun b => decide (b.1 ≠ addr)) }

/-- Modelled from the spec: the operations by which the partitioner changes the graph:
a placeholder for a block is inserted, a built block is attached with the successor
edges of its terminal instruction, a block is removed, the edges are put to the
semantics-backed check.  Missing from the sources. -/
inductive GraphOp where
  | insertPlaceholder (addr : Address)
  | attachBlock (addr : Address) (terminal : Instruction)
  | eraseBlock (addr : Address)
  | checkEdges
  deriving Repr

/-- Modelled from the spec: the graph after one operation, missing from the sources. -/
def ControlFlowGraph.step (settings : PartitionerSettings) (sem : SemanticsEngine)
    (g : ControlFlowGraph) : GraphOp → ControlFlowGraph
  | GraphOp.insertPlaceholder addr => g.insertVertex (Vertex.BasicBlockPlaceholder addr)
  | GraphOp.attachBlock addr terminal =>
    g.attachBlock addr terminal
      (successorEdges settings (sem.consulted settings)
        (Vertex.BasicBlockPlaceholder addr) terminal)
  | GraphOp.eraseBlock addr => g.eraseBlock addr
  | GraphOp.checkEdges =>
    { g with edges := g.edges.map (Edge.check (sem.consulted settings)) }

/-- Modelled from the spec: the graph a partitioning run arrives at from the empty graph
by a sequence of operations; missing from the sources. -/
def ControlFlowGraph.run (settings : PartitionerSettings) (sem : SemanticsEngine)
    (ops : List GraphOp) : ControlFlowGraph :=
  ops.foldl (ControlFlowGraph.step settings sem) ControlFlowGraph.empty

/-- A semantics engine that resolves no target and finds every edge reachable. -/
def acceptingEngine : SemanticsEngine :=
  { resolveTarget := fun _ => none
    isReachable := fun _ _ _ => some true }

/-- The edges of a graph that are `Proved` were accepted by the engine `sem`. -/
def ProvedAccepted (sem : SemanticsEngine) (g : ControlFlowGraph) : Prop :=
  ∀ e ∈ g.edges, e.confidence = Confidence.PROVED →
    sem.isReachable e.source e.target e.kind = some true

/-- A graph with exactly one `Undiscovered` and exactly one `Indeterminate` vertex. -/
def HasSentinels (g : ControlFlowGraph) : Prop :=
  g.vertices.count Vertex.Undiscovered = 1 ∧ g.vertices.count Vertex.Indeterminate = 1

/-- Member template `LoaderSettings::serialize`; the version is unused.  Five members are
handed to the archive; `linkObjectFiles`, `linkStaticArchives` and `linker` are not
mentioned and stay as they are in the object. -/
def LoaderSettings.serialize (_version : Nat) (x : LoaderSettings) : Ser LoaderSettings := do
  let deExecuteZerosThreshold ← nvpNat "deExecuteZerosThreshold" x.deExecuteZerosThreshold
  let deExecuteZerosLeaveAtFront ←
    nvpNat "deExecuteZerosLeaveAtFront" x.deExecuteZerosLeaveAtFront
  let deExecuteZerosLeaveAtBack ←
    nvpNat "deExecuteZerosLeaveAtBack" x.deExecuteZerosLeaveAtBack
  let memoryDataAdjustment ←
    nvpEnum MemoryDataAdjustment.toNat MemoryDataAdjustment.ofNat?
      "memoryDataAdjustment" x.memoryDataAdjustment
  let memoryIsExecutable ← nvpBool "memoryIsExecutable" x.memoryIsExecutable
  pure { x with
         deExecuteZerosThreshold, deExecuteZerosLeaveAtFront, deExecuteZerosLeaveAtBack,
         memoryDataAdjustment, memoryIsExecutable }

/-- The class version of `LoaderSettings`, for which no `BOOST_CLASS_VERSION` is
declared. -/
def LoaderSettings.classVersion : Nat := 0

/-- Saving `x` into an empty archive: the archive written. -/
def LoaderSettings.save (x : LoaderSettings) : Option Archive :=
  (LoaderSettings.serialize LoaderSettings.classVersion x Archive.output).map Prod.snd

/-- Loading the named values `data` into the object `target`: the object afterwards and
the archive afterwards. -/
def LoaderSettings.load (data : List (String × Value)) (target : LoaderSettings) :
    Option (LoaderSettings × Archive) :=
  LoaderSettings.serialize LoaderSettings.classVersion target (Archive.input data)

/-- Saving `x` and loading what was written into `target`. -/
def LoaderSettings.roundTrip (target x : LoaderSettings) : Option LoaderSettings :=
  match LoaderSettings.save x with
  | some ar => (LoaderSettings.load ar.data target).map Prod.fst
  | none => none

end Partitioner2

/-! ## Theorems -/

namespace Partitioner2

/-- C1: `AstConstructionSettings::strict()` returns the settings value with
`allowEmptyGlobalBlock = false`, `allowFunctionWithNoBasicBlocks = false`,
`allowEmptyBasicBlocks = false` and `copyAllInstructions = true`. -/
theorem strict_fields :
    AstConstructionSettings.strict.allowEmptyGlobalBlock = false ∧
    AstConstructionSettings.strict.allowFunctionWithNoBasicBlocks = false ∧
    AstConstructionSettings.strict.allowEmptyBasicBlocks = false ∧
    AstConstructionSettings.strict.copyAllInstructions = true ∧
    AstConstructionSettings.strict =
      { allowEmptyGlobalBlock := false, allowFunctionWithNoBasicBlocks := false,
        allowEmptyBasicBlocks := false, copyAllInstructions := true } :=
  ⟨rfl, rfl, rfl, rfl, rfl⟩

/-- C2: `AstConstructionSettings::permissive()` returns a settings value in which
`allowEmptyGlobalBlock`, `allowFunctionWithNoBasicBlocks` and `allowEmptyBasicBlocks`
are all true; in particular a basic block with no instructions is allowed.  No
settings value allows more: each allow flag of any settings value is at most the
corresponding flag of `permissive()`. -/
theorem permissive_allows_all :
    AstConstructionSettings.permissive.allowEmptyGlobalBlock = true ∧
    AstConstructionSettings.permissive.allowFunctionWithNoBasicBlocks = true ∧
    AstConstructionSettings.permissive.allowEmptyBasicBlocks = true ∧
    (∀ t : AstConstructionSettings,
      t.allowEmptyGlobalBlock ≤ AstConstructionSettings.permissive.allowEmptyGlobalBlock ∧
      t.allowFunctionWithNoBasicBlocks ≤
        AstConstructionSettings.permissive.allowFunctionWithNoBasicBlocks ∧
      t.allowEmptyBasicBlocks ≤ AstConstructionSettings.permissive.allowEmptyBasicBlocks) :=
  ⟨rfl, rfl, rfl, fun _ => ⟨Bool.le_true _, Bool.le_true _, Bool.le_true _⟩⟩

/-- C3: both presets set `copyAllInstructions = true`; each of the three allow flags is
false in `strict()` and true in `permissive()`; and the presets agree on every other
field, so that `permissive()` is `strict()` with exactly the three allow flags set. -/
theorem presets_differ_in_allow_flags :
    AstConstructionSettings.strict.copyAllInstructions = true ∧
    AstConstructionSettings.permissive.copyAllInstructions = true ∧
    (AstConstructionSettings.strict.allowEmptyGlobalBlock = false ∧
      AstConstructionSettings.permissive.allowEmptyGlobalBlock = true) ∧
    (AstConstructionSettings.strict.allowFunctionWithNoBasicBlocks = false ∧
      AstConstructionSettings.permissive.allowFunctionWithNoBasicBlocks = true) ∧
    (AstConstructionSettings.strict.allowEmptyBasicBlocks = false ∧
      AstConstructionSettings.permissive.allowEmptyBasicBlocks = true) ∧
    AstConstructionSettings.permissive =
      { AstConstructionSettings.strict with
        allowEmptyGlobalBlock := true
        allowFunctionWithNoBasicBlocks := true
        allowEmptyBasicBlocks := true } :=
  ⟨rfl, rfl, ⟨rfl, rfl⟩, ⟨rfl, rfl⟩, ⟨rfl, rfl⟩, rfl⟩

/-- C4: the default constructor of `LoaderSettings` initialises `memoryDataAdjustment`
to `DATA_IS_INITIALIZED`, which is not the `DATA_NO_CHANGE` that the doc comment of the
data member names as the default. -/
theorem ctor_memoryDataAdjustment_is_initialized :
    LoaderSettings.ctor.memoryDataAdjustment = MemoryDataAdjustment.DATA_IS_INITIALIZED ∧
    LoaderSettings.ctor.memoryDataAdjustment ≠ MemoryDataAdjustment.DATA_NO_CHANGE :=
  ⟨rfl, by decide⟩

/-- C5: a default-constructed `LoaderSettings` has `memoryIsExecutable = false`. -/
theorem ctor_memoryIsExecutable_false :
    LoaderSettings.ctor.memoryIsExecutable = false :=
  rfl

/-- C6: the linker command of a default-constructed `LoaderSettings` is a non-empty
string in which `%o` occurs exactly once and `%f` occurs exactly once, the `%o` before
the `%f`, neither of them enclosed in quote characters (the command holds no quote
character at all). -/
theorem ctor_linker_variables :
    LoaderSettings.ctor.linker ≠ "" ∧
    countOccurrences outputVariable LoaderSettings.ctor.linker.toList = 1 ∧
    countOccurrences inputVariable LoaderSettings.ctor.linker.toList = 1 ∧
    (∃ i j : Nat,
      firstOccurrence outputVariable LoaderSettings.ctor.linker.toList = some i ∧
      firstOccurrence inputVariable LoaderSettings.ctor.linker.toList = some j ∧
      i < j ∧
      enclosedInQuotes LoaderSettings.ctor.linker.toList i outputVariable.length = false ∧
      enclosedInQuotes LoaderSettings.ctor.linker.toList j inputVariable.length = false) ∧
    (∀ c ∈ LoaderSettings.ctor.linker.toList, isQuoteChar c = false) := by
  refine ⟨by decide, by decide, by decide, ⟨6, 57, ?_⟩, by decide⟩
  decide

/-- C7: a default-constructed `PartitionerSettings` has `maxBasicBlockSize = 0`, the
value documented on the data member as meaning no limit. -/
theorem ctor_maxBasicBlockSize_zero :
    PartitionerSettings.ctor.maxBasicBlockSize = 0 :=
  rfl

/-- C8: `FunctionReturnAnalysis` has exactly four values, `MAYRETURN_DEFAULT_YES`,
`MAYRETURN_DEFAULT_NO`, `MAYRETURN_ALWAYS_YES` and `MAYRETURN_ALWAYS_NO`: every value
is one of them, they are pairwise distinct, and they carry the integers 0, 1, 2, 3. -/
theorem FunctionReturnAnalysis_four_values :
    (∀ x : FunctionReturnAnalysis,
      x = FunctionReturnAnalysis.MAYRETURN_DEFAULT_YES ∨
      x = FunctionReturnAnalysis.MAYRETURN_DEFAULT_NO ∨
      x = FunctionReturnAnalysis.MAYRETURN_ALWAYS_YES ∨
      x = FunctionReturnAnalysis.MAYRETURN_ALWAYS_NO) ∧
    [FunctionReturnAnalysis.MAYRETURN_DEFAULT_YES,
      FunctionReturnAnalysis.MAYRETURN_DEFAULT_NO,
      FunctionReturnAnalysis.MAYRETURN_ALWAYS_YES,
      FunctionReturnAnalysis.MAYRETURN_ALWAYS_NO].Nodup ∧
    [FunctionReturnAnalysis.MAYRETURN_DEFAULT_YES,
      FunctionReturnAnalysis.MAYRETURN_DEFAULT_NO,
      FunctionReturnAnalysis.MAYRETURN_ALWAYS_YES,
      FunctionReturnAnalysis.MAYRETURN_ALWAYS_NO].map FunctionReturnAnalysis.toNat
      = [0, 1, 2, 3] ∧
    Fintype.card FunctionReturnAnalysis = 4 := by
  refine ⟨?_, by decide, rfl, rfl⟩
  intro x
  cases x <;> simp

/-- C9: `EdgeType` has exactly six values, normal, function call, function return,
call-return, function transfer and user-defined: every value is one of them, they are
pairwise distinct, and they carry the integers 0 to 5. -/
theorem EdgeType_six_values :
    (∀ x : EdgeType,
      x = EdgeType.E_NORMAL ∨ x = EdgeType.E_FUNCTION_CALL ∨
      x = EdgeType.E_FUNCTION_RETURN ∨ x = EdgeType.E_CALL_RETURN ∨
      x = EdgeType.E_FUNCTION_XFER ∨ x = EdgeType.E_USER_DEFINED) ∧
    [EdgeType.E_NORMAL, EdgeType.E_FUNCTION_CALL, EdgeType.E_FUNCTION_RETURN,
      EdgeType.E_CALL_RETURN, EdgeType.E_FUNCTION_XFER, EdgeType.E_USER_DEFINED].Nodup ∧
    [EdgeType.E_NORMAL, EdgeType.E_FUNCTION_CALL, EdgeType.E_FUNCTION_RETURN,
      EdgeType.E_CALL_RETURN, EdgeType.E_FUNCTION_XFER, EdgeType.E_USER_DEFINED].map
      EdgeType.toNat = [0, 1, 2, 3, 4, 5] ∧
    Fintype.card EdgeType = 6 := by
  refine ⟨?_, by decide, rfl, rfl⟩
  intro x
  cases x <;> simp

/-- C10: `VertexType` has exactly five values, basic block (or placeholder),
undiscovered, indeterminate, non-existing and user-defined: every value is one of them,
they are pairwise distinct, and they carry the integers 0 to 4. -/
theorem VertexType_five_values :
    (∀ x : VertexType,
      x = VertexType.V_BASIC_BLOCK ∨ x = VertexType.V_UNDISCOVERED ∨
      x = VertexType.V_INDETERMINATE ∨ x = VertexType.V_NONEXISTING ∨
      x = VertexType.V_USER_DEFINED) ∧
    [VertexType.V_BASIC_BLOCK, VertexType.V_UNDISCOVERED, VertexType.V_INDETERMINATE,
      VertexType.V_NONEXISTING, VertexType.V_USER_DEFINED].Nodup ∧
    [VertexType.V_BASIC_BLOCK, VertexType.V_UNDISCOVERED, VertexType.V_INDETERMINATE,
      VertexType.V_NONEXISTING, VertexType.V_USER_DEFINED].map VertexType.toNat
      = [0, 1, 2, 3, 4] ∧
    Fintype.card VertexType = 5 := by
  refine ⟨?_, by decide, rfl, rfl⟩
  intro x
  cases x <;> simp

/-! ## Running serialization code -/

@[simp] theorem ser_bind_apply {α β : Type} (m : Ser α) (f : α → Ser β) (ar : Archive) :
    (m >>= f) ar = match m ar with
      | some (a, ar1) => f a ar1
      | none => none := rfl

@[simp] theorem ser_pure_apply {α : Type} (a : α) (ar : Archive) :
    (pure a : Ser α) ar = some (a, ar) := rfl

@[simp] theorem ser_archive_apply (ar : Archive) : Ser.archive ar = some (ar, ar) := rfl

@[simp] theorem amp_write (name : String) (v : Value) (d : List (String × Value))
    (vis : List String) :
    amp name v ⟨true, d, vis⟩ = some (v, ⟨true, d ++ [(name, v)], vis ++ [name]⟩) := rfl

@[simp] theorem amp_read (name : String) (v w : Value) (rest : List (String × Value))
    (vis : List String) :
    amp name v ⟨false, (name, w) :: rest, vis⟩ = some (w, ⟨false, rest, vis ++ [name]⟩) := by
  simp [amp, Archive.read]

@[simp] theorem nvpBool_write (name : String) (cur : Bool) (d : List (String × Value))
    (vis : List String) :
    nvpBool name cur ⟨true, d, vis⟩
      = some (cur, ⟨true, d ++ [(name, Value.bool cur)], vis ++ [name]⟩) := rfl

@[simp] theorem nvpBool_read (name : String) (cur b : Bool) (rest : List (String × Value))
    (vis : List String) :
    nvpBool name cur ⟨false, (name, Value.bool b) :: rest, vis⟩
      = some (b, ⟨false, rest, vis ++ [name]⟩) := by
  simp [nvpBool, ser_bind_apply, amp_read, ser_pure_apply]

@[simp] theorem nvpNat_write (name : String) (cur : Nat) (d : List (String × Value))
    (vis : List String) :
    nvpNat name cur ⟨true, d, vis⟩
      = some (cur, ⟨true, d ++ [(name, Value.nat cur)], vis ++ [name]⟩) := rfl

@[simp] theorem nvpNat_read (name : String) (cur n : Nat) (rest : List (String × Value))
    (vis : List String) :
    nvpNat name cur ⟨false, (name, Value.nat n) :: rest, vis⟩
      = some (n, ⟨false, rest, vis ++ [name]⟩) := by
  simp [nvpNat, ser_bind_apply, amp_read, ser_pure_apply]

@[simp] theorem nvpString_write (name : String) (cur : String) (d : List (String × Value))
    (vis : List String) :
    nvpString name cur ⟨true, d, vis⟩
      = some (cur, ⟨true, d ++ [(name, Value.str cur)], vis ++ [name]⟩) := rfl

@[simp] theorem nvpString_read (name : String) (cur s : String) (rest : List (String × Value))
    (vis : List String) :
    nvpString name cur ⟨false, (name, Value.str s) :: rest, vis⟩
      = some (s, ⟨false, rest, vis ++ [name]⟩) := by
  simp [nvpString, ser_bind_apply, amp_read, ser_pure_apply]

@[simp] theorem nvpNatList_write (name : String) (cur : List Nat) (d : List (String × Value))
    (vis : List String) :
    nvpNatList name cur ⟨true, d, vis⟩
      = some (cur, ⟨true, d ++ [(name, Value.natList cur)], vis ++ [name]⟩) := rfl

@[simp] theorem nvpNatList_read (name : String) (cur l : List Nat) (rest : List (String × Value))
    (vis : List String) :
    nvpNatList name cur ⟨false, (name, Value.natList l) :: rest, vis⟩
      = some (l, ⟨false, rest, vis ++ [name]⟩) := by
  simp [nvpNatList, ser_bind_apply, amp_read, ser_pure_apply]

@[simp] theorem nvpInterval_write (name : String) (cur : AddressInterval)
    (d : List (String × Value)) (vis : List String) :
    nvpInterval name cur ⟨true, d, vis⟩
      = some (cur, ⟨true, d ++ [(name, Value.interval cur)], vis ++ [name]⟩) := rfl

@[simp] theorem nvpInterval_read (name : String) (cur i : AddressInterval)
    (rest : List (String × Value)) (vis : List String) :
    nvpInterval name cur ⟨false, (name, Value.interval i) :: rest, vis⟩
      = some (i, ⟨false, rest, vis ++ [name]⟩) := by
  simp [nvpInterval, ser_bind_apply, amp_read, ser_pure_apply]

theorem functionReturnAnalysis_ofNat_toNat (e : FunctionReturnAnalysis) :
    FunctionReturnAnalysis.ofNat? e.toNat = some e := by
  cases e <;> rfl

theorem semanticMemoryParadigm_ofNat_toNat (e : SemanticMemoryParadigm) :
    SemanticMemoryParadigm.ofNat? e.toNat = some e := by
  cases e <;> rfl

theorem memoryDataAdjustment_ofNat_toNat (e : MemoryDataAdjustment) :
    MemoryDataAdjustment.ofNat? e.toNat = some e := by
  cases e <;> rfl

theorem nvpEnum_write {α : Type} (toNat : α → Nat) (ofNat? : Nat → Option α)
    (h : ∀ e, ofNat? (toNat e) = some e) (name : String) (cur : α)
    (d : List (String × Value)) (vis : List String) :
    nvpEnum toNat ofNat? name cur ⟨true, d, vis⟩
      = some (cur, ⟨true, d ++ [(name, Value.nat (toNat cur))], vis ++ [name]⟩) := by
  simp [nvpEnum, ser_bind_apply, amp_write, ser_pure_apply, h]

theorem nvpEnum_read {α : Type} (toNat : α → Nat) (ofNat? : Nat → Option α)
    (h : ∀ e, ofNat? (toNat e) = some e) (name : String) (cur e : α)
    (rest : List (String × Value)) (vis : List String) :
    nvpEnum toNat ofNat? name cur ⟨false, (name, Value.nat (toNat e)) :: rest, vis⟩
      = some (e, ⟨false, rest, vis ++ [name]⟩) := by
  simp [nvpEnum, ser_bind_apply, amp_read, ser_pure_apply, h]

theorem BasePartitionerSettings.serialize_write (version : Nat)
    (x : BasePartitionerSettings) (d : List (String × Value)) (vis : List String) :
    BasePartitionerSettings.serialize version x ⟨true, d, vis⟩
      = some (x, ⟨true,
          d ++ [("usingSemantics", Value.bool x.usingSemantics),
                ("checkingCallBranch", Value.bool x.checkingCallBranch),
                ("basicBlockSemanticsAutoDrop", Value.bool x.basicBlockSemanticsAutoDrop)],
          vis ++ ["usingSemantics", "checkingCallBranch", "basicBlockSemanticsAutoDrop"]⟩) := by
  simp [BasePartitionerSettings.serialize, ser_bind_apply, ser_pure_apply, nvpBool_write]

theorem BasePartitionerSettings.serialize_read (version : Nat)
    (t x : BasePartitionerSettings) (rest : List (String × Value)) (vis : List String) :
    BasePartitionerSettings.serialize version t ⟨false,
        ("usingSemantics", Value.bool x.usingSemantics) ::
        ("checkingCallBranch", Value.bool x.checkingCallBranch) ::
        ("basicBlockSemanticsAutoDrop", Value.bool x.basicBlockSemanticsAutoDrop) :: rest, vis⟩
      = some (x, ⟨false, rest,
          vis ++ ["usingSemantics", "checkingCallBranch", "basicBlockSemanticsAutoDrop"]⟩) := by
  simp [BasePartitionerSettings.serialize, ser_bind_apply, ser_pure_apply, nvpBool_read]

@[simp] theorem nvpObj_base_write (name : String) (cur : BasePartitionerSettings)
    (d : List (String × Value)) (vis : List String) :
    nvpObj (BasePartitionerSettings.serialize 0) name cur ⟨true, d, vis⟩
      = some (cur, ⟨true,
          d ++ [(name, Value.obj
                [("usingSemantics", Value.bool cur.usingSemantics),
                 ("checkingCallBranch", Value.bool cur.checkingCallBranch),
                 ("basicBlockSemanticsAutoDrop",
                   Value.bool cur.basicBlockSemanticsAutoDrop)])],
          vis ++ [name]⟩) := by
  simp [nvpObj, ser_bind_apply, ser_pure_apply, ser_archive_apply, Archive.output,
    BasePartitionerSettings.serialize_write, amp_write]

@[simp] theorem nvpObj_base_read (name : String) (cur x : BasePartitionerSettings)
    (rest : List (String × Value)) (vis : List String) :
    nvpObj (BasePartitionerSettings.serialize 0) name cur ⟨false,
        (name, Value.obj
          [("usingSemantics", Value.bool x.usingSemantics),
           ("checkingCallBranch", Value.bool x.checkingCallBranch),
           ("basicBlockSemanticsAutoDrop", Value.bool x.basicBlockSemanticsAutoDrop)])
          :: rest, vis⟩
      = some (x, ⟨false, rest, vis ++ [name]⟩) := by
  simp [nvpObj, ser_bind_apply, ser_pure_apply, ser_archive_apply, Archive.input,
    BasePartitionerSettings.serialize_read, amp_read]

set_option maxRecDepth 8192 in
set_option maxHeartbeats 1000000 in
/-- C18: saving any `PartitionerSettings` value `x` at version 4, the declared class
version, and loading what was written at version 4 into any object `t` succeeds and
yields `x` itself, equal to `x` in every data member. -/
theorem roundTrip_classVersion (x t : PartitionerSettings) :
    PartitionerSettings.classVersion = 4 ∧
    PartitionerSettings.roundTrip PartitionerSettings.classVersion t x = some x := by
  refine ⟨rfl, ?_⟩
  simp [PartitionerSettings.classVersion,
    PartitionerSettings.roundTrip, PartitionerSettings.save, PartitionerSettings.load,
    PartitionerSettings.serialize, PartitionerSettings.serializeSyscalls,
    PartitionerSettings.serializeFindingIntraFunctionCode,
    ser_bind_apply, ser_pure_apply, ser_archive_apply,
    Archive.output, Archive.input, Archive.isLoading,
    nvpObj_base_write, nvpObj_base_read, nvpBool_write, nvpBool_read, nvpNat_write,
    nvpNat_read, nvpString_write, nvpString_read, nvpNatList_write, nvpNatList_read,
    nvpInterval_write, nvpInterval_read, nvpEnum_write, nvpEnum_read,
    functionReturnAnalysis_ofNat_toNat, semanticMemoryParadigm_ofNat_toNat]

/-! ## Saving and loading `PartitionerSettings` at any version -/

set_option maxRecDepth 8192 in
set_option maxHeartbeats 4000000 in
/-- What a save at version `v` writes and what a load of it at version `v` produces: the
names written are the names visited, they are pairwise distinct and depend on `v` only;
the load visits the same names, consumes every entry, and yields `x` except for the
legacy encoding of `findingIntraFunctionCode` and for the members that version `v` does
not store, which keep the value of the target `t`. -/
theorem save_load (v : Nat) (x t : PartitionerSettings) :
    ∃ arS : Archive,
      PartitionerSettings.save v x = some arS ∧
      arS.visited = arS.data.map Prod.fst ∧
      arS.visited.Nodup ∧
      (∀ y : PartitionerSettings,
        (PartitionerSettings.save v y).map Archive.visited = some arS.visited) ∧
      PartitionerSettings.load v arS.data t =
        some ({ x with
                findingIntraFunctionCode :=
                  if v ≥ 2 then x.findingIntraFunctionCode
                  else if x.findingIntraFunctionCode > 0 then 10 else 0
                findingFunctionCallFunctions :=
                  if v ≥ 4 then x.findingFunctionCallFunctions
                  else t.findingFunctionCallFunctions
                functionReturnAnalysisMaxSorts :=
                  if v ≥ 3 then x.functionReturnAnalysisMaxSorts
                  else t.functionReturnAnalysisMaxSorts
                namingSyscalls := if v ≥ 1 then x.namingSyscalls else t.namingSyscalls
                syscallHeader := if v ≥ 1 then x.syscallHeader else t.syscallHeader },
              ⟨false, [], arS.visited⟩) := by
  match v with
  | 0 =>
    simp [PartitionerSettings.save, PartitionerSettings.load,
      PartitionerSettings.serialize, PartitionerSettings.serializeSyscalls,
      PartitionerSettings.serializeFindingIntraFunctionCode,
      Archive.output, Archive.input, Archive.isLoading, nvpEnum_write, nvpEnum_read,
      functionReturnAnalysis_ofNat_toNat, semanticMemoryParadigm_ofNat_toNat]
  | 1 =>
    simp [PartitionerSettings.save, PartitionerSettings.load,
      PartitionerSettings.serialize, PartitionerSettings.serializeSyscalls,
      PartitionerSettings.serializeFindingIntraFunctionCode,
      Archive.output, Archive.input, Archive.isLoading, nvpEnum_write, nvpEnum_read,
      functionReturnAnalysis_ofNat_toNat, semanticMemoryParadigm_ofNat_toNat]
  | 2 =>
    simp [PartitionerSettings.save, PartitionerSettings.load,
      PartitionerSettings.serialize, PartitionerSettings.serializeSyscalls,
      PartitionerSettings.serializeFindingIntraFunctionCode,
      Archive.output, Archive.input, Archive.isLoading, nvpEnum_write, nvpEnum_read,
      functionReturnAnalysis_ofNat_toNat, semanticMemoryParadigm_ofNat_toNat]
  | 3 =>
    simp [PartitionerSettings.save, PartitionerSettings.load,
      PartitionerSettings.serialize, PartitionerSettings.serializeSyscalls,
      PartitionerSettings.serializeFindingIntraFunctionCode,
      Archive.output, Archive.input, Archive.isLoading, nvpEnum_write, nvpEnum_read,
      functionReturnAnalysis_ofNat_toNat, semanticMemoryParadigm_ofNat_toNat]
  | n + 4 =>
    simp [PartitionerSettings.save, PartitionerSettings.load,
      PartitionerSettings.serialize, PartitionerSettings.serializeSyscalls,
      PartitionerSettings.serializeFindingIntraFunctionCode,
      Archive.output, Archive.input, Archive.isLoading, nvpEnum_write, nvpEnum_read,
      functionReturnAnalysis_ofNat_toNat, semanticMemoryParadigm_ofNat_toNat]

/-- The round trip in terms of the shared description of save and load. -/
theorem roundTrip_eq (v : Nat) (x t : PartitionerSettings) :
    PartitionerSettings.roundTrip v t x =
      some { x with
             findingIntraFunctionCode :=
               if v ≥ 2 then x.findingIntraFunctionCode
               else if x.findingIntraFunctionCode > 0 then 10 else 0
             findingFunctionCallFunctions :=
               if v ≥ 4 then x.findingFunctionCallFunctions
               else t.findingFunctionCallFunctions
             functionReturnAnalysisMaxSorts :=
               if v ≥ 3 then x.functionReturnAnalysisMaxSorts
               else t.functionReturnAnalysisMaxSorts
             namingSyscalls := if v ≥ 1 then x.namingSyscalls else t.namingSyscalls
             syscallHeader := if v ≥ 1 then x.syscallHeader else t.syscallHeader } := by
  obtain ⟨arS, hs, -, -, -, hl⟩ := save_load v x t
  simp only [PartitionerSettings.roundTrip, hs, hl, Option.map_some']

/-- C19: at every archive version `v`, saving any settings value succeeds; the names
handed to the archive are the names of the entries written, in order; no name occurs
twice; the sequence is the same for every settings value saved (it depends on `v` only);
and loading what was written, at version `v` into any object, succeeds, visits the same
sequence of names and leaves no entry unread. -/
theorem serialize_same_fields (v : Nat) (x t : PartitionerSettings) :
    ∃ arS : Archive,
      PartitionerSettings.save v x = some arS ∧
      arS.visited = arS.data.map Prod.fst ∧
      arS.visited.Nodup ∧
      (∀ y : PartitionerSettings,
        (PartitionerSettings.save v y).map Archive.visited = some arS.visited) ∧
      ∃ (r : PartitionerSettings) (arL : Archive),
        PartitionerSettings.load v arS.data t = some (r, arL) ∧
        arL.visited = arS.visited ∧ arL.data = [] := by
  obtain ⟨arS, hs, hn, hd, hy, hl⟩ := save_load v x t
  exact ⟨arS, hs, hn, hd, hy, _, _, hl, rfl, rfl⟩

/-- C20: at an archive version below 2, saving a settings value whose pass count
`findingIntraFunctionCode` is `n` and loading it back yields the pass count 10 if
`n > 0` and 0 if `n = 0`.  So the round trip keeps whether the pass is enabled, the
loaded count is 0 or 10 and at most the default-constructed count 10, some count (3) is
not kept, and a second round trip changes nothing. -/
theorem legacy_findingIntraFunctionCode (v : Nat) (hv : v < 2)
    (x t : PartitionerSettings) :
    ∃ r : PartitionerSettings,
      PartitionerSettings.roundTrip v t x = some r ∧
      r.findingIntraFunctionCode = (if x.findingIntraFunctionCode > 0 then 10 else 0) ∧
      (r.findingIntraFunctionCode > 0 ↔ x.findingIntraFunctionCode > 0) ∧
      (r.findingIntraFunctionCode = 0 ∨ r.findingIntraFunctionCode = 10) ∧
      r.findingIntraFunctionCode ≤ PartitionerSettings.ctor.findingIntraFunctionCode ∧
      (∃ r3 : PartitionerSettings,
        PartitionerSettings.roundTrip v t { x with findingIntraFunctionCode := 3 } = some r3 ∧
        r3.findingIntraFunctionCode ≠ 3) ∧
      PartitionerSettings.roundTrip v t r = some r := by
  have h2 : ¬ (v ≥ 2) := by omega
  refine ⟨_, roundTrip_eq v x t, ?_, ?_, ?_, ?_, ⟨_, roundTrip_eq v _ t, ?_⟩, ?_⟩
  · simp [h2]
  · by_cases hx : x.findingIntraFunctionCode > 0 <;> simp [h2, hx]
  · by_cases hx : x.findingIntraFunctionCode > 0 <;> simp [h2, hx]
  · by_cases hx : x.findingIntraFunctionCode > 0 <;>
      simp [h2, hx, PartitionerSettings.ctor]
  · simp [h2]
  · have h3 : ¬ (v ≥ 3) := by omega
    have h4 : ¬ (v ≥ 4) := by omega
    rw [roundTrip_eq]
    by_cases hx : x.findingIntraFunctionCode > 0 <;> by_cases h1 : v ≥ 1 <;>
      simp [h1, h2, h3, h4, hx]

/-- C20 at version 1, for the default-constructed settings with pass count 3 loaded
into a default-constructed object. -/
theorem legacy_findingIntraFunctionCode_witness :
    1 < 2 ∧
    ∃ r : PartitionerSettings,
      PartitionerSettings.roundTrip 1 PartitionerSettings.ctor
        { PartitionerSettings.ctor with findingIntraFunctionCode := 3 } = some r ∧
      r.findingIntraFunctionCode = 10 :=
  ⟨by decide,
    (legacy_findingIntraFunctionCode 1 (by decide)
      { PartitionerSettings.ctor with findingIntraFunctionCode := 3 }
      PartitionerSettings.ctor).imp (fun _ h => ⟨h.1, h.2.1⟩)⟩

end Partitioner2

namespace RTED

/-- C11: without UPC each of `rted_ProcessMsg`, `snd_FreeMemory`, `snd_CreateHeapPtr`,
`snd_InitVariable`, `snd_MovePointer` and `rted_UpcAllInitialize` returns, for every
tuple of arguments and from every program state, with the program state unchanged. -/
theorem without_upc_empty_implementations
    {σ rted_TypeDesc rted_Address rted_AddressDesc rted_AllocKind rted_SourceInfo : Type}
    (st : σ) (td : rted_TypeDesc) (addr haddr : rted_Address) (hdesc : rted_AddressDesc)
    (sz mallocsz : Nat) (pm : Int) (ak : rted_AllocKind) (cn : String)
    (si : rted_SourceInfo) :
    (rted_ProcessMsg : StateM σ Unit).run st = ((), st) ∧
    (snd_FreeMemory addr ak si : StateM σ Unit).run st = ((), st) ∧
    (snd_CreateHeapPtr td addr haddr hdesc sz mallocsz ak cn si : StateM σ Unit).run st
      = ((), st) ∧
    (snd_InitVariable td addr haddr hdesc sz pm cn si : StateM σ Unit).run st = ((), st) ∧
    (snd_MovePointer td addr haddr hdesc cn si : StateM σ Unit).run st = ((), st) ∧
    (rted_UpcAllInitialize : StateM σ Unit).run st = ((), st) :=
  ⟨rfl, rfl, rfl, rfl, rfl, rfl⟩

end RTED

namespace Partitioner2

/-! ## The AddressSpace Index keeps its entries apart -/

theorem AddressRange.contains_iff (r : AddressRange) (a : Nat) :
    r.contains a = true ↔ r.least ≤ a ∧ a ≤ r.greatest := by
  simp [AddressRange.contains]

theorem AddressRange.overlaps_iff (r s : AddressRange) :
    r.overlaps s = true ↔ ∃ a, r.contains a = true ∧ s.contains a = true := by
  simp only [AddressRange.overlaps, AddressRange.contains_iff, decide_eq_true_eq]
  constructor
  · intro h
    exact ⟨max r.least s.least, ⟨le_max_left _ _, le_trans h (min_le_left _ _)⟩,
      ⟨le_max_right _ _, le_trans h (min_le_right _ _)⟩⟩
  · rintro ⟨a, ⟨h1, h2⟩, ⟨h3, h4⟩⟩
    exact le_trans (max_le h1 h3) (le_min h2 h4)

theorem AddressRange.overlaps_comm (r s : AddressRange) :
    r.overlaps s = s.overlaps r := by
  simp [AddressRange.overlaps, max_comm, min_comm]

/-- A piece of `r.minus s` lies inside `r` and outside `s`. -/
theorem AddressRange.contains_of_mem_minus {r s p : AddressRange} (hp : p ∈ r.minus s)
    {a : Nat} (ha : p.contains a = true) :
    r.contains a = true ∧ s.contains a = false := by
  rw [Bool.eq_false_iff, Ne, AddressRange.contains_iff, AddressRange.contains_iff]
  rw [AddressRange.contains_iff] at ha
  unfold AddressRange.minus at hp
  split at hp
  · simp only [List.mem_singleton] at hp
    subst hp
    exact ⟨ha, by omega⟩
  · simp only [List.mem_append] at hp
    rcases hp with hp | hp
    · split at hp
      · simp only [List.mem_singleton] at hp
        subst hp
        simp only at ha
        have := min_le_left r.greatest (s.least - 1)
        have := min_le_right r.greatest (s.least - 1)
        exact ⟨by omega, by omega⟩
      · simp at hp
    · split at hp
      · simp only [List.mem_singleton] at hp
        subst hp
        simp only at ha
        have := le_max_left r.least (s.greatest + 1)
        have := le_max_right r.least (s.greatest + 1)
        exact ⟨by omega, by omega⟩
      · simp at hp

/-- The pieces of `r.minus s` share no address. -/
theorem AddressRange.minus_pairwise (r s : AddressRange) :
    (r.minus s).Pairwise (fun p q => p.overlaps q = false) := by
  unfold AddressRange.minus
  split
  · simp
  · split <;> split <;> simp [AddressRange.overlaps]
    rename_i h1 h2 h3
    have := min_le_right r.greatest (s.least - 1)
    have := le_max_right r.least (s.greatest + 1)
    omega

theorem EntriesApart.empty {Owner : Type} :
    EntriesApart (AddressSpaceIndex.empty : AddressSpaceIndex Owner) := by
  simp [EntriesApart, AddressSpaceIndex.empty]

theorem EntriesApart.claim {Owner : Type} {idx : AddressSpaceIndex Owner}
    (h : EntriesApart idx) (range : AddressRange) (owner : Owner) :
    EntriesApart (idx.claim range owner).2 := by
  unfold AddressSpaceIndex.claim
  split
  · exact h
  · rename_i hnone
    rw [List.find?_eq_none] at hnone
    refine List.pairwise_cons.mpr ⟨?_, h⟩
    intro e he
    have := hnone e he
    rw [AddressRange.overlaps_comm]
    simpa using this

theorem EntriesApart.release {Owner : Type} {idx : AddressSpaceIndex Owner}
    (h : EntriesApart idx) (range : AddressRange) :
    EntriesApart (idx.release range) := by
  unfold EntriesApart AddressSpaceIndex.release
  rw [List.pairwise_flatMap]
  constructor
  · intro e _
    rw [List.pairwise_map]
    exact AddressRange.minus_pairwise e.1 range
  · refine List.Pairwise.imp ?_ h
    intro e f hef x hx y hy
    simp only [List.mem_map] at hx hy
    obtain ⟨p, hp, rfl⟩ := hx
    obtain ⟨q, hq, rfl⟩ := hy
    rw [Bool.eq_false_iff, Ne, AddressRange.overlaps_iff]
    rintro ⟨a, ha1, ha2⟩
    have h1 := (AddressRange.contains_of_mem_minus hp ha1).1
    have h2 := (AddressRange.contains_of_mem_minus hq ha2).1
    have : e.1.overlaps f.1 = true := (AddressRange.overlaps_iff _ _).mpr ⟨a, h1, h2⟩
    simp [hef] at this

theorem EntriesApart.index_step {Owner : Type} {idx : AddressSpaceIndex Owner}
    (h : EntriesApart idx) (op : IndexOp Owner) : EntriesApart (idx.step op) := by
  cases op with
  | claim range owner => exact h.claim range owner
  | release range => exact h.release range

theorem EntriesApart.index_foldl {Owner : Type} (ops : List (IndexOp Owner))
    (idx : AddressSpaceIndex Owner) (h : EntriesApart idx) :
    EntriesApart (ops.foldl AddressSpaceIndex.step idx) := by
  induction ops generalizing idx with
  | nil => exact h
  | cons op ops ih => exact ih (idx.step op) (h.index_step op)

theorem EntriesApart.index_run {Owner : Type} (ops : List (IndexOp Owner)) :
    EntriesApart (AddressSpaceIndex.run ops) :=
  EntriesApart.index_foldl ops _ EntriesApart.empty

/-- Two entries of a list that is pairwise apart, with different owners, share no
address. -/
theorem apart_of_pairwise {Owner : Type} {l : List (AddressRange × Owner)}
    (h : l.Pairwise (fun e f => e.1.overlaps f.1 = false))
    {e f : AddressRange × Owner} (he : e ∈ l) (hf : f ∈ l) (hne : e.2 ≠ f.2) :
    e.1.overlaps f.1 = false := by
  induction l with
  | nil => simp at he
  | cons x xs ih =>
    rw [List.pairwise_cons] at h
    rcases List.mem_cons.mp he with rfl | he'
    · rcases List.mem_cons.mp hf with rfl | hf'
      · exact absurd rfl hne
      · exact h.1 f hf'
    · rcases List.mem_cons.mp hf with rfl | hf'
      · rw [AddressRange.overlaps_comm]
        exact h.1 e he'
      · exact ih h.2 he' hf'

/-- C12: in the graph a partitioning run arrives at, whatever claims and releases the
driver issued, two distinct basic blocks have no address in common: no range of the one
overlaps a range of the other. -/
theorem blocks_do_not_overlap {Owner : Type} [DecidableEq Owner]
    (ops : List (IndexOp Owner)) (b1 b2 : Owner) (hne : b1 ≠ b2)
    (r1 r2 : AddressRange)
    (h1 : r1 ∈ (AddressSpaceIndex.run ops).rangesOf b1)
    (h2 : r2 ∈ (AddressSpaceIndex.run ops).rangesOf b2) :
    r1.overlaps r2 = false ∧
    ∀ a : Nat, ¬ (r1.contains a = true ∧ r2.contains a = true) := by
  have hover : r1.overlaps r2 = false := by
    simp only [AddressSpaceIndex.rangesOf, List.mem_map, List.mem_filter,
      decide_eq_true_eq] at h1 h2
    obtain ⟨e, ⟨he, heo⟩, rfl⟩ := h1
    obtain ⟨f, ⟨hf, hfo⟩, rfl⟩ := h2
    exact apart_of_pairwise (EntriesApart.index_run ops) he hf (by rw [heo, hfo]; exact hne)
  refine ⟨hover, fun a ha => ?_⟩
  have : r1.overlaps r2 = true := (AddressRange.overlaps_iff _ _).mpr ⟨a, ha.1, ha.2⟩
  simp [hover] at this

/-- C12 on a run of three claims, the second of which conflicts, and one release: the
ranges left to blocks 1 and 3 do not overlap. -/
theorem blocks_do_not_overlap_witness :
    (1 : Nat) ≠ 3 ∧
    (⟨0, 3⟩ : AddressRange).overlaps ⟨10, 12⟩ = false :=
  ⟨by decide,
    (blocks_do_not_overlap
      [IndexOp.claim ⟨0, 9⟩ 1, IndexOp.claim ⟨5, 12⟩ 2, IndexOp.claim ⟨10, 12⟩ 3,
        IndexOp.release ⟨4, 9⟩]
      1 3 (by decide) ⟨0, 3⟩ ⟨10, 12⟩ (by decide) (by decide)).1⟩

/-! ## `claim` never overwrites -/

/-- The first entry that overlaps `r` is also the first entry to hold some address
of `r`. -/
theorem find_overlaps_owner {Owner : Type} (r : AddressRange)
    (l : List (AddressRange × Owner)) (e : AddressRange × Owner)
    (h : l.find? (fun x => x.1.overlaps r) = some e) :
    ∃ a : Nat, r.contains a = true ∧ l.find? (fun x => x.1.contains a) = some e := by
  induction l with
  | nil => simp at h
  | cons x xs ih =>
    rw [List.find?_cons] at h
    cases hx : x.1.overlaps r with
    | true =>
      rw [hx] at h
      obtain ⟨a, ha1, ha2⟩ := (AddressRange.overlaps_iff _ _).mp hx
      refine ⟨a, ha2, ?_⟩
      rw [List.find?_cons, ha1]
      exact h
    | false =>
      rw [hx] at h
      obtain ⟨a, ha, hfind⟩ := ih h
      refine ⟨a, ha, ?_⟩
      have hxa : x.1.contains a = false := by
        rw [Bool.eq_false_iff]
        intro hc
        have : x.1.overlaps r = true := (AddressRange.overlaps_iff _ _).mpr ⟨a, hc, ha⟩
        simp [hx] at this
      rw [List.find?_cons, hxa]
      exact hfind

/-- With block 7 on the addresses 0 to 3 and nothing else claimed, no address from 10 to
13 has an owner. -/
theorem example_range_free (a : Nat) (ha : (⟨10, 13⟩ : AddressRange).contains a = true) :
    ((AddressSpaceIndex.run [IndexOp.claim ⟨0, 3⟩ (7 : Nat)]).ownerAt a) = none := by
  rw [AddressRange.contains_iff] at ha
  have : (⟨0, 3⟩ : AddressRange).contains a = false := by
    rw [Bool.eq_false_iff, Ne, AddressRange.contains_iff]
    simp only at ha ⊢
    omega
  simp [AddressSpaceIndex.run, AddressSpaceIndex.step, AddressSpaceIndex.claim,
    AddressSpaceIndex.empty, AddressSpaceIndex.ownerAt, this]

/-- C13, as stated, fails: block 7 holds the addresses 0 to 3 and claims the free range
10 to 13; the claim is answered `Ok`, and afterwards `ownerAt` returns the new owner 7
also at address 0, which is not an address of the range claimed. -/
theorem claim_exactly_counterexample :
    (∀ a : Nat, (⟨10, 13⟩ : AddressRange).contains a = true →
      ((AddressSpaceIndex.run [IndexOp.claim ⟨0, 3⟩ (7 : Nat)]).ownerAt a) = none) ∧
    ((AddressSpaceIndex.run [IndexOp.claim ⟨0, 3⟩ (7 : Nat)]).claim ⟨10, 13⟩ 7).1
      = ClaimResult.Ok ∧
    ¬ (∀ a : Nat,
        ((AddressSpaceIndex.run [IndexOp.claim ⟨0, 3⟩ (7 : Nat)]).claim ⟨10, 13⟩ 7).2.ownerAt a
          = some 7 ↔ (⟨10, 13⟩ : AddressRange).contains a = true) := by
  refine ⟨example_range_free, by decide, ?_⟩
  · intro h
    have h0 := (h 0).mp (by decide)
    exact absurd h0 (by decide)

/-- C13, amended: `claim(range, owner)` answers `Conflict(existingOwner)` whenever some
address of the range has an owner, `existingOwner` owning an address of the range, and
then returns the index as it was; otherwise it answers `Ok`, and afterwards `ownerAt`
returns the new owner at every address of the range and what it returned before at
every other address. -/
theorem claim_never_overwrites {Owner : Type} (idx : AddressSpaceIndex Owner)
    (range : AddressRange) (owner : Owner) :
    ((∃ a : Nat, range.contains a = true ∧ (idx.ownerAt a).isSome = true) →
      ∃ existingOwner : Owner,
        idx.claim range owner = (ClaimResult.Conflict existingOwner, idx) ∧
        ∃ a : Nat, range.contains a = true ∧ idx.ownerAt a = some existingOwner) ∧
    ((¬ ∃ a : Nat, range.contains a = true ∧ (idx.ownerAt a).isSome = true) →
      (idx.claim range owner).1 = ClaimResult.Ok ∧
      ∀ a : Nat, (idx.claim range owner).2.ownerAt a =
        if range.contains a = true then some owner else idx.ownerAt a) := by
  constructor
  · rintro ⟨a, ha, hown⟩
    cases hfind : idx.entries.find? (fun e => e.1.overlaps range) with
    | none =>
      exfalso
      rw [List.find?_eq_none] at hfind
      simp only [AddressSpaceIndex.ownerAt, Option.isSome_map'] at hown
      rw [List.find?_isSome] at hown
      obtain ⟨e, he, hea⟩ := hown
      exact hfind e he ((AddressRange.overlaps_iff _ _).mpr ⟨a, hea, ha⟩)
    | some e =>
      refine ⟨e.2, ?_, ?_⟩
      · simp only [AddressSpaceIndex.claim, hfind]
      · obtain ⟨b, hb, hfb⟩ := find_overlaps_owner range idx.entries e hfind
        exact ⟨b, hb, by simp only [AddressSpaceIndex.ownerAt, hfb, Option.map_some']⟩
  · intro hno
    have hfind : idx.entries.find? (fun e => e.1.overlaps range) = none := by
      rw [List.find?_eq_none]
      intro e he hov
      obtain ⟨a, ha1, ha2⟩ := (AddressRange.overlaps_iff _ _).mp hov
      refine hno ⟨a, ha2, ?_⟩
      simp only [AddressSpaceIndex.ownerAt, Option.isSome_map']
      rw [List.find?_isSome]
      exact ⟨e, he, ha1⟩
    simp only [AddressSpaceIndex.claim, hfind, true_and]
    intro a
    simp only [AddressSpaceIndex.ownerAt, List.find?_cons]
    cases range.contains a <;> simp

/-- C13, amended, at work: with block 7 on the addresses 0 to 3, a claim of 2 to 5 by
block 8 is answered `Conflict 7` and changes nothing, and a claim of 10 to 13 by block 7
is answered `Ok`. -/
theorem claim_never_overwrites_witness :
    (∃ existingOwner : Nat,
      (AddressSpaceIndex.run [IndexOp.claim ⟨0, 3⟩ (7 : Nat)]).claim ⟨2, 5⟩ 8
        = (ClaimResult.Conflict existingOwner,
            AddressSpaceIndex.run [IndexOp.claim ⟨0, 3⟩ (7 : Nat)])) ∧
    ((AddressSpaceIndex.run [IndexOp.claim ⟨0, 3⟩ (7 : Nat)]).claim ⟨10, 13⟩ 7).1
      = ClaimResult.Ok :=
  ⟨((claim_never_overwrites (AddressSpaceIndex.run [IndexOp.claim ⟨0, 3⟩ (7 : Nat)])
        ⟨2, 5⟩ 8).1 ⟨2, by decide, by decide⟩).imp (fun _ h => h.1),
   ((claim_never_overwrites (AddressSpaceIndex.run [IndexOp.claim ⟨0, 3⟩ (7 : Nat)])
        ⟨10, 13⟩ 7).2
      (fun ⟨a, ha, hsome⟩ => by simp [example_range_free a ha] at hsome)).1⟩

/-! ## The fixed-point loop is idempotent -/

/-- Passes that end with nothing produced started with nothing produced and left the
graph alone. -/
theorem Driver.runPasses_quiet {G Seed Mutation : Type} (d : Driver G Seed Mutation)
    (ps : List (Pass G Seed Mutation)) (acc : RoundResult G Seed Mutation)
    (hs : (d.runPasses ps acc).newSeeds = []) (hm : (d.runPasses ps acc).mutations = []) :
    acc.newSeeds = [] ∧ acc.mutations = [] ∧ (d.runPasses ps acc).graph = acc.graph := by
  induction ps generalizing acc with
  | nil => exact ⟨hs, hm, rfl⟩
  | cons p ps ih =>
    simp only [Driver.runPasses] at hs hm ⊢
    obtain ⟨h1, h2, h3⟩ := ih _ hs hm
    simp only [List.append_eq_nil] at h1 h2
    refine ⟨h1.1, h2.1, ?_⟩
    rw [h3]
    simp only [h1.2, h2.2, List.foldl_nil]

/-- A round that produces nothing leaves the graph alone. -/
theorem Driver.round_quiet {G Seed Mutation : Type} (d : Driver G Seed Mutation) (g : G)
    (hs : (d.round g).newSeeds = []) (hm : (d.round g).mutations = []) :
    (d.round g).graph = g :=
  (d.runPasses_quiet d.passes _ hs hm).2.2

/-- A graph at which the loop ends as converged is one on which a round produces
nothing. -/
theorem Driver.fixedPoint_converged {G Seed Mutation : Type} (d : Driver G Seed Mutation)
    (n : Nat) (g g1 : G) (h : d.fixedPoint n g = LoopResult.Converged g1) :
    (d.round g1).newSeeds = [] ∧ (d.round g1).mutations = [] ∧ (d.round g1).graph = g1 := by
  induction n generalizing g with
  | zero => simp [Driver.fixedPoint] at h
  | succ n ih =>
    simp only [Driver.fixedPoint] at h
    split at h
    · rename_i hq
      simp only [Bool.and_eq_true, List.isEmpty_iff] at hq
      have hg : (d.round g).graph = g := d.round_quiet g hq.1 hq.2
      simp only [LoopResult.Converged.injEq] at h
      rw [hg] at h
      subst h
      exact ⟨hq.1, hq.2, hg⟩
    · exact ih _ h

/-- C16: when the fixed-point loop has ended at a fixed point with graph `g1`, a round on
`g1` under the same configuration produces no new seed and no mutation and leaves the
graph as it is, and the loop run again on `g1` ends at once with `g1`. -/
theorem loop_idempotent {G Seed Mutation : Type} (d : Driver G Seed Mutation) (g g1 : G)
    (h : d.loop g = LoopResult.Converged g1) :
    (d.round g1).newSeeds = [] ∧ (d.round g1).mutations = [] ∧
    (d.round g1).graph = g1 ∧ d.loop g1 = LoopResult.Converged g1 := by
  obtain ⟨hs, hm, hg⟩ := d.fixedPoint_converged d.maxRounds g g1 h
  refine ⟨hs, hm, hg, ?_⟩
  unfold Driver.loop at h ⊢
  cases hn : d.maxRounds with
  | zero => rw [hn] at h; simp [Driver.fixedPoint] at h
  | succ n => simp [Driver.fixedPoint, hs, hm, hg]

/-- C16 on the counting driver: from 0 the loop converges to 3, and run again on 3 it
ends with 3. -/
theorem loop_idempotent_witness :
    countingDriver.loop 0 = LoopResult.Converged 3 ∧
    countingDriver.loop 3 = LoopResult.Converged 3 :=
  ⟨by decide, (loop_idempotent countingDriver 0 3 (by decide)).2.2.2⟩

/-! ## Edges of the CFG Store: confidence -/

/-- Every successor edge of a block is a created edge from that block. -/
theorem successorEdges_created (settings : PartitionerSettings) (sem : SemanticsEngine)
    (source : Vertex) (terminal : Instruction) (e : Edge)
    (he : e ∈ successorEdges settings sem source terminal) :
    ∃ (target : Vertex) (kind : EdgeType), e = Edge.create source target kind := by
  unfold successorEdges at he
  cases hc : terminal.cls <;> simp only [hc] at he
  · simp only [List.mem_singleton] at he; exact ⟨_, _, he⟩
  · simp only [List.mem_singleton] at he; exact ⟨_, _, he⟩
  · rw [List.mem_append] at he
    rcases he with he | he
    · split at he
      · simp at he
      · simp only [List.mem_singleton] at he; exact ⟨_, _, he⟩
    · split at he
      · simp at he
      · simp only [List.mem_singleton] at he; exact ⟨_, _, he⟩
  · simp only [List.mem_cons, List.mem_singleton, List.not_mem_nil, or_false] at he
    rcases he with he | he <;> exact ⟨_, _, he⟩
  · simp only [List.mem_singleton] at he; exact ⟨_, _, he⟩
  · simp only [List.mem_singleton] at he; exact ⟨_, _, he⟩

/-- Every successor edge of a block is created `Assumed`. -/
theorem successorEdges_assumed (settings : PartitionerSettings) (sem : SemanticsEngine)
    (source : Vertex) (terminal : Instruction) (e : Edge)
    (he : e ∈ successorEdges settings sem source terminal) :
    e.confidence = Confidence.ASSUMED := by
  obtain ⟨target, kind, rfl⟩ := successorEdges_created settings sem source terminal e he
  rfl

theorem insertVertex_edges (g : ControlFlowGraph) (v : Vertex) :
    (g.insertVertex v).edges = g.edges := by
  unfold ControlFlowGraph.insertVertex
  split <;> rfl

theorem insertEdge_edges (g : ControlFlowGraph) (e : Edge) :
    (g.insertEdge e).edges = e :: g.edges := by
  simp [ControlFlowGraph.insertEdge, insertVertex_edges]

theorem foldl_insertEdge_edges (es : List Edge) (g : ControlFlowGraph) (e : Edge) :
    e ∈ (es.foldl ControlFlowGraph.insertEdge g).edges ↔ e ∈ es ∨ e ∈ g.edges := by
  induction es generalizing g with
  | nil => simp
  | cons x xs ih =>
    rw [List.foldl_cons, ih, insertEdge_edges]
    simp only [List.mem_cons]
    tauto

theorem attachBlock_edges (g : ControlFlowGraph) (addr : Address) (terminal : Instruction)
    (es : List Edge) (e : Edge) (he : e ∈ (g.attachBlock addr terminal es).edges) :
    e ∈ es ∨ e ∈ g.edges := by
  unfold ControlFlowGraph.attachBlock at he
  split at he
  · exact Or.inr he
  · simp only [foldl_insertEdge_edges, insertVertex_edges] at he
    exact he

/-- An edge that is routed anew is `Assumed`; an edge that stays `Proved` was not
routed. -/
theorem reroute_proved (v : Vertex) (e : Edge)
    (hp : (Edge.reroute v e).confidence = Confidence.PROVED) : Edge.reroute v e = e := by
  unfold Edge.reroute at hp ⊢
  split
  · rename_i ht
    rw [if_pos ht] at hp
    exact absurd hp (by simp [Edge.create])
  · rfl

theorem ProvedAccepted.graph_step (settings : PartitionerSettings) (sem : SemanticsEngine)
    (g : ControlFlowGraph) (h : ProvedAccepted (sem.consulted settings) g) (op : GraphOp) :
    ProvedAccepted (sem.consulted settings) (g.step settings sem op) := by
  intro e he hp
  cases op with
  | insertPlaceholder addr =>
    simp only [ControlFlowGraph.step, insertVertex_edges] at he
    exact h e he hp
  | attachBlock addr terminal =>
    simp only [ControlFlowGraph.step] at he
    rcases attachBlock_edges _ _ _ _ e he with he | he
    · have := successorEdges_assumed _ _ _ _ e he
      rw [this] at hp
      exact absurd hp (by decide)
    · exact h e he hp
  | eraseBlock addr =>
    simp only [ControlFlowGraph.step, ControlFlowGraph.eraseBlock, List.mem_map,
      List.mem_filter] at he
    obtain ⟨e0, ⟨he0, -⟩, rfl⟩ := he
    have hr := reroute_proved _ e0 hp
    rw [hr] at hp ⊢
    exact h e0 he0 hp
  | checkEdges =>
    simp only [ControlFlowGraph.step, List.mem_map] at he
    obtain ⟨e0, he0, rfl⟩ := he
    unfold Edge.check at hp ⊢
    split
    · rename_i hacc
      exact hacc
    · rename_i hacc
      rw [if_neg hacc] at hp
      exact h e0 he0 hp

theorem ProvedAccepted.graph_foldl (settings : PartitionerSettings) (sem : SemanticsEngine)
    (ops : List GraphOp) (g : ControlFlowGraph)
    (h : ProvedAccepted (sem.consulted settings) g) :
    ProvedAccepted (sem.consulted settings)
      (ops.foldl (ControlFlowGraph.step settings sem) g) := by
  induction ops generalizing g with
  | nil => exact h
  | cons op ops ih => exact ih _ (h.graph_step settings sem g op)

theorem ProvedAccepted.graph_run (settings : PartitionerSettings) (sem : SemanticsEngine)
    (ops : List GraphOp) :
    ProvedAccepted (sem.consulted settings) (ControlFlowGraph.run settings sem ops) :=
  ProvedAccepted.graph_foldl settings sem ops _ (fun _ he _ => by
    simp [ControlFlowGraph.empty] at he)

theorem Confidence.eq_assumed_of_ne_proved (c : Confidence)
    (h : c ≠ Confidence.PROVED) : c = Confidence.ASSUMED := by
  cases c
  · rfl
  · exact absurd rfl h

/-- C14: every successor edge is created `Assumed`; in every graph a run arrives at, an
edge is `Proved` only if semantics are in use and the semantics engine accepted the
edge; with semantics not in use, or with an engine that answers `Unknown` to every
query, every edge of the graph is `Assumed`; this is so under the default-constructed
settings, whose `usingSemantics` is false. -/
theorem proved_only_if_accepted (settings : PartitionerSettings) (sem : SemanticsEngine)
    (ops : List GraphOp) :
    (∀ (source : Vertex) (terminal : Instruction),
      ∀ e ∈ successorEdges settings (sem.consulted settings) source terminal,
        e.confidence = Confidence.ASSUMED) ∧
    (∀ e ∈ (ControlFlowGraph.run settings sem ops).edges,
      e.confidence = Confidence.PROVED →
        settings.base.usingSemantics = true ∧
        sem.isReachable e.source e.target e.kind = some true) ∧
    ((settings.base.usingSemantics = false ∨
        ∀ (s t : Vertex) (k : EdgeType), sem.isReachable s t k = none) →
      ∀ e ∈ (ControlFlowGraph.run settings sem ops).edges,
        e.confidence = Confidence.ASSUMED) ∧
    PartitionerSettings.ctor.base.usingSemantics = false ∧
    (∀ e ∈ (ControlFlowGraph.run PartitionerSettings.ctor sem ops).edges,
      e.confidence = Confidence.ASSUMED) := by
  have key : ∀ (st : PartitionerSettings),
      ∀ e ∈ (ControlFlowGraph.run st sem ops).edges,
      e.confidence = Confidence.PROVED →
        st.base.usingSemantics = true ∧
        sem.isReachable e.source e.target e.kind = some true := by
    intro st e he hp
    have h := ProvedAccepted.graph_run st sem ops e he hp
    unfold SemanticsEngine.consulted at h
    cases hu : st.base.usingSemantics with
    | true => rw [hu] at h; exact ⟨rfl, h⟩
    | false => rw [hu] at h; simp [SemanticsEngine.removed] at h
  refine ⟨fun source terminal e he => successorEdges_assumed _ _ _ _ e he,
    key settings, ?_, rfl, ?_⟩
  · intro hoff e he
    apply Confidence.eq_assumed_of_ne_proved
    intro hp
    obtain ⟨hu, hacc⟩ := key settings e he hp
    rcases hoff with hoff | hoff
    · rw [hoff] at hu; exact absurd hu (by decide)
    · rw [hoff] at hacc; exact absurd hacc (by simp)
  · intro e he
    apply Confidence.eq_assumed_of_ne_proved
    intro hp
    have := (key PartitionerSettings.ctor e he hp).1
    exact absurd this (by decide)

/-- C14 on a run that attaches a block ending in a return and then checks the edges:
with semantics in use and an engine that accepts, the edge is `Proved` and was accepted;
under the default-constructed settings the same run leaves the edge `Assumed`. -/
theorem proved_only_if_accepted_witness :
    (acceptingEngine.isReachable (Vertex.BasicBlockPlaceholder 8192) Vertex.Indeterminate
      EdgeType.E_FUNCTION_RETURN = some true) ∧
    (⟨Vertex.BasicBlockPlaceholder 8192, Vertex.Indeterminate, EdgeType.E_FUNCTION_RETURN,
      Confidence.ASSUMED⟩ : Edge).confidence = Confidence.ASSUMED :=
  ⟨((proved_only_if_accepted
        { PartitionerSettings.ctor with
          base := { PartitionerSettings.ctor.base with usingSemantics := true } }
        acceptingEngine
        [GraphOp.attachBlock 8192 ⟨8193, 1, InstructionClass.Return⟩,
          GraphOp.checkEdges]).2.1
      ⟨Vertex.BasicBlockPlaceholder 8192, Vertex.Indeterminate,
        EdgeType.E_FUNCTION_RETURN, Confidence.PROVED⟩ (by decide) rfl).2,
   (proved_only_if_accepted PartitionerSettings.ctor acceptingEngine
        [GraphOp.attachBlock 8192 ⟨8193, 1, InstructionClass.Return⟩,
          GraphOp.checkEdges]).2.2.2.2
      ⟨Vertex.BasicBlockPlaceholder 8192, Vertex.Indeterminate,
        EdgeType.E_FUNCTION_RETURN, Confidence.ASSUMED⟩ (by decide)⟩

/-! ## Sentinel vertices of the CFG Store -/

theorem insertVertex_count_of_mem (g : ControlFlowGraph) (v w : Vertex)
    (hw : w ∈ g.vertices) :
    (g.insertVertex v).vertices.count w = g.vertices.count w := by
  unfold ControlFlowGraph.insertVertex
  split
  · rfl
  · rename_i hv
    have hne : w ≠ v := fun h => hv (h ▸ hw)
    simp only [List.count_cons_of_ne hne]

theorem HasSentinels.mem {g : ControlFlowGraph} (h : HasSentinels g) :
    Vertex.Undiscovered ∈ g.vertices ∧ Vertex.Indeterminate ∈ g.vertices :=
  ⟨List.count_pos_iff.mp (by rw [h.1]; decide), List.count_pos_iff.mp (by rw [h.2]; decide)⟩

theorem HasSentinels.insertVertex {g : ControlFlowGraph} (h : HasSentinels g)
    (v : Vertex) : HasSentinels (g.insertVertex v) :=
  ⟨by rw [insertVertex_count_of_mem g v _ h.mem.1]; exact h.1,
   by rw [insertVertex_count_of_mem g v _ h.mem.2]; exact h.2⟩

theorem HasSentinels.insertEdge {g : ControlFlowGraph} (h : HasSentinels g) (e : Edge) :
    HasSentinels (g.insertEdge e) :=
  (h.insertVertex e.source).insertVertex e.target

theorem HasSentinels.insertEdges (es : List Edge) {g : ControlFlowGraph}
    (h : HasSentinels g) : HasSentinels (es.foldl ControlFlowGraph.insertEdge g) := by
  induction es generalizing g with
  | nil => exact h
  | cons x xs ih => exact ih (h.insertEdge x)

theorem HasSentinels.attachBlock {g : ControlFlowGraph} (h : HasSentinels g)
    (addr : Address) (terminal : Instruction) (es : List Edge) :
    HasSentinels (g.attachBlock addr terminal es) := by
  unfold ControlFlowGraph.attachBlock
  split
  · exact h
  · exact HasSentinels.insertEdges es (h.insertVertex _)

theorem HasSentinels.eraseBlock {g : ControlFlowGraph} (h : HasSentinels g)
    (addr : Address) : HasSentinels (g.eraseBlock addr) := by
  unfold HasSentinels ControlFlowGraph.eraseBlock
  simp only
  rw [List.count_filter (by simp), List.count_filter (by simp)]
  exact h

/-- A conditional branch keeps at least one of its two edges. -/
theorem successorEdges_conditional_ne_nil (settings : PartitionerSettings)
    (sem : SemanticsEngine) (source : Vertex) (terminal : Instruction)
    (hc : terminal.cls = InstructionClass.ConditionalBranch) :
    successorEdges settings sem source terminal ≠ [] := by
  unfold successorEdges
  simp only [hc]
  intro h
  rw [List.append_eq_nil] at h
  obtain ⟨h1, h2⟩ := h
  split at h1
  · rename_i hs1
    split at h2
    · rename_i hs2
      simp only [suppressesGhost, Bool.and_eq_true, Bool.not_eq_true'] at hs1 hs2
      have a := hs1.2
      have b := hs2.1.2
      simp only [Bool.not_eq_eq_eq_not, Bool.not_true] at a
      rw [a] at b
      exact absurd b (by decide)
    · simp at h2
  · simp at h1

/-- A sequence that succeeds has a first part that succeeds and a rest that succeeds on
what the first part yields. -/
theorem ser_bind_elim {α β : Type} {m : Ser α} {f : α → Ser β} {ar : Archive}
    {p : β × Archive} {P : Prop} (h : (m >>= f) ar = some p)
    (k : ∀ a ar1, m ar = some (a, ar1) → f a ar1 = some p → P) : P := by
  rw [ser_bind_apply] at h
  cases hm : m ar with
  | none => rw [hm] at h; exact absurd h (by simp)
  | some q =>
    obtain ⟨a, ar1⟩ := q
    rw [hm] at h
    exact k a ar1 hm h

theorem ser_pure_bind {α β : Type} (a : α) (f : α → Ser β) :
    (pure a >>= f) = f a := rfl

theorem serializeSyscalls_legacy (v : Nat) (hv : ¬ v ≥ 1) (namingSyscalls : Bool)
    (syscallHeader : String) :
    PartitionerSettings.serializeSyscalls v namingSyscalls syscallHeader
      = pure (namingSyscalls, syscallHeader) := by
  unfold PartitionerSettings.serializeSyscalls
  rw [if_neg hv]

/-- A load at a version below 3 leaves `findingFunctionCallFunctions` and
`functionReturnAnalysisMaxSorts` alone, and below 1 also `namingSyscalls` and
`syscallHeader`, whatever the archive holds. -/
theorem load_below_3 (v : Nat) (hv : v < 3) (data : List (String × Value))
    (t r : PartitionerSettings) (ar : Archive)
    (h : PartitionerSettings.load v data t = some (r, ar)) :
    r.findingFunctionCallFunctions = t.findingFunctionCallFunctions ∧
    r.functionReturnAnalysisMaxSorts = t.functionReturnAnalysisMaxSorts ∧
    (v < 1 → r.namingSyscalls = t.namingSyscalls ∧ r.syscallHeader = t.syscallHeader) := by
  have h4 : ¬ v ≥ 4 := by omega
  have h3 : ¬ v ≥ 3 := by omega
  simp only [PartitionerSettings.load, PartitionerSettings.serialize, if_neg h4, if_neg h3,
    ser_pure_bind] at h
  iterate 26 (refine ser_bind_elim h (fun _ _ _ h => ?_))
  refine ser_bind_elim h (fun p _ hsys h => ?_)
  obtain ⟨ns, sh⟩ := p
  simp only [ser_pure_apply, Option.some.injEq, Prod.mk.injEq] at h
  obtain ⟨rfl, -⟩ := h
  refine ⟨rfl, rfl, fun h1 => ?_⟩
  rw [serializeSyscalls_legacy v (by omega), ser_pure_apply] at hsys
  simp only [Option.some.injEq, Prod.mk.injEq] at hsys
  exact ⟨hsys.1.1.symm, hsys.1.2.symm⟩

/-- A load at version 3 leaves `findingFunctionCallFunctions` alone, whatever the archive
holds. -/
theorem load_at_3 (data : List (String × Value))
    (t r : PartitionerSettings) (ar : Archive)
    (h : PartitionerSettings.load 3 data t = some (r, ar)) :
    r.findingFunctionCallFunctions = t.findingFunctionCallFunctions := by
  have h4 : ¬ 3 ≥ 4 := by omega
  have h3 : 3 ≥ 3 := by omega
  simp only [PartitionerSettings.load, PartitionerSettings.serialize, if_neg h4, if_pos h3,
    ser_pure_bind] at h
  iterate 27 (refine ser_bind_elim h (fun _ _ _ h => ?_))
  refine ser_bind_elim h (fun p _ _ h => ?_)
  obtain ⟨ns, sh⟩ := p
  simp only [ser_pure_apply, Option.some.injEq, Prod.mk.injEq] at h
  obtain ⟨rfl, -⟩ := h
  rfl

/-- C21: a load at version `v` that succeeds, whatever the archive holds, leaves in the
target `findingFunctionCallFunctions` as it was when `v < 4`,
`functionReturnAnalysisMaxSorts` when `v < 3`, and `namingSyscalls` and `syscallHeader`
when `v < 1`; loaded into a default-constructed object these members keep the defaults
true, 50, true and the empty path. -/
theorem load_keeps_ungated (v : Nat) (data : List (String × Value))
    (t r : PartitionerSettings) (ar : Archive)
    (h : PartitionerSettings.load v data t = some (r, ar)) :
    (v < 4 → r.findingFunctionCallFunctions = t.findingFunctionCallFunctions) ∧
    (v < 3 → r.functionReturnAnalysisMaxSorts = t.functionReturnAnalysisMaxSorts) ∧
    (v < 1 → r.namingSyscalls = t.namingSyscalls ∧ r.syscallHeader = t.syscallHeader) ∧
    (t = PartitionerSettings.ctor →
      (v < 4 → r.findingFunctionCallFunctions = true) ∧
      (v < 3 → r.functionReturnAnalysisMaxSorts = 50) ∧
      (v < 1 → r.namingSyscalls = true ∧ r.syscallHeader = "")) := by
  have p4 : v < 4 → r.findingFunctionCallFunctions = t.findingFunctionCallFunctions := by
    intro h4
    by_cases h3 : v < 3
    · exact (load_below_3 v h3 data t r ar h).1
    · have hv : v = 3 := by omega
      subst hv
      exact load_at_3 data t r ar h
  have p3 : v < 3 →
      r.functionReturnAnalysisMaxSorts = t.functionReturnAnalysisMaxSorts :=
    fun h3 => (load_below_3 v h3 data t r ar h).2.1
  have p1 : v < 1 →
      r.namingSyscalls = t.namingSyscalls ∧ r.syscallHeader = t.syscallHeader :=
    fun h1 => (load_below_3 v (by omega) data t r ar h).2.2 h1
  refine ⟨p4, p3, p1, ?_⟩
  intro ht
  subst ht
  exact ⟨fun h4 => p4 h4, fun h3 => p3 h3, fun h1 => p1 h1⟩

/-- C21 on an archive that a save at version 0 wrote for settings with
`namingSyscalls` off and 7 sorts: loaded at version 0 into a default-constructed
object, `namingSyscalls` is still on and the sorts are still 50. -/
theorem load_keeps_ungated_witness :
    ∃ (data : List (String × Value)) (r : PartitionerSettings) (ar : Archive),
      PartitionerSettings.load 0 data PartitionerSettings.ctor = some (r, ar) ∧
      r.namingSyscalls = true ∧ r.functionReturnAnalysisMaxSorts = 50 := by
  obtain ⟨arS, -, -, -, -, hl⟩ :=
    save_load 0
      { PartitionerSettings.ctor with
        namingSyscalls := false, functionReturnAnalysisMaxSorts := 7 }
      PartitionerSettings.ctor
  exact ⟨arS.data, _, _, hl,
    ((load_keeps_ungated 0 _ _ _ _ hl).2.2.2 rfl).2.2 (by decide) |>.1,
    ((load_keeps_ungated 0 _ _ _ _ hl).2.2.2 rfl).2.1 (by decide)⟩

/-! ## `LoaderSettings` round trip -/

/-- C22: `LoaderSettings::serialize` hands five members to the archive and no other.
Saving `x` and loading what was written into `t` succeeds and yields `t` with
`deExecuteZerosThreshold`, `deExecuteZerosLeaveAtFront`, `deExecuteZerosLeaveAtBack`,
`memoryDataAdjustment` and `memoryIsExecutable` taken from `x`; `linkObjectFiles`,
`linkStaticArchives` and `linker` are those of `t`, and so are not those of `x` where
the two differ.  Any load that succeeds, whatever the archive holds, leaves these three
members of `t` alone. -/
theorem loader_roundTrip (x t : LoaderSettings) :
    (LoaderSettings.save x).map Archive.visited =
      some ["deExecuteZerosThreshold", "deExecuteZerosLeaveAtFront",
        "deExecuteZerosLeaveAtBack", "memoryDataAdjustment", "memoryIsExecutable"] ∧
    ∃ r : LoaderSettings,
      LoaderSettings.roundTrip t x = some r ∧
      r.deExecuteZerosThreshold = x.deExecuteZerosThreshold ∧
      r.deExecuteZerosLeaveAtFront = x.deExecuteZerosLeaveAtFront ∧
      r.deExecuteZerosLeaveAtBack = x.deExecuteZerosLeaveAtBack ∧
      r.memoryDataAdjustment = x.memoryDataAdjustment ∧
      r.memoryIsExecutable = x.memoryIsExecutable ∧
      r.linkObjectFiles = t.linkObjectFiles ∧
      r.linkStaticArchives = t.linkStaticArchives ∧
      r.linker = t.linker ∧
      (t.linkObjectFiles ≠ x.linkObjectFiles → r.linkObjectFiles ≠ x.linkObjectFiles) ∧
      (t.linkStaticArchives ≠ x.linkStaticArchives →
        r.linkStaticArchives ≠ x.linkStaticArchives) ∧
      (t.linker ≠ x.linker → r.linker ≠ x.linker) ∧
      (∀ (data : List (String × Value)) (r1 : LoaderSettings) (ar : Archive),
        LoaderSettings.load data t = some (r1, ar) →
        r1.linkObjectFiles = t.linkObjectFiles ∧
        r1.linkStaticArchives = t.linkStaticArchives ∧ r1.linker = t.linker) := by
  have hs : LoaderSettings.serialize LoaderSettings.classVersion x Archive.output =
      some (x, ⟨true,
        [("deExecuteZerosThreshold", Value.nat x.deExecuteZerosThreshold),
         ("deExecuteZerosLeaveAtFront", Value.nat x.deExecuteZerosLeaveAtFront),
         ("deExecuteZerosLeaveAtBack", Value.nat x.deExecuteZerosLeaveAtBack),
         ("memoryDataAdjustment", Value.nat x.memoryDataAdjustment.toNat),
         ("memoryIsExecutable", Value.bool x.memoryIsExecutable)],
        ["deExecuteZerosThreshold", "deExecuteZerosLeaveAtFront",
         "deExecuteZerosLeaveAtBack", "memoryDataAdjustment", "memoryIsExecutable"]⟩) := by
    simp [LoaderSettings.serialize, Archive.output, nvpEnum_write,
      memoryDataAdjustment_ofNat_toNat]
  have hr : LoaderSettings.roundTrip t x =
      some { t with
             deExecuteZerosThreshold := x.deExecuteZerosThreshold
             deExecuteZerosLeaveAtFront := x.deExecuteZerosLeaveAtFront
             deExecuteZerosLeaveAtBack := x.deExecuteZerosLeaveAtBack
             memoryDataAdjustment := x.memoryDataAdjustment
             memoryIsExecutable := x.memoryIsExecutable } := by
    simp only [LoaderSettings.roundTrip, LoaderSettings.save, hs, Option.map_some']
    simp [LoaderSettings.load, LoaderSettings.serialize, Archive.input, nvpEnum_read,
      memoryDataAdjustment_ofNat_toNat]
  refine ⟨by simp [LoaderSettings.save, hs], _, hr, rfl, rfl, rfl, rfl, rfl, rfl, rfl, rfl,
    fun h => h, fun h => h, fun h => h, ?_⟩
  intro data r1 ar h
  simp only [LoaderSettings.load, LoaderSettings.serialize] at h
  iterate 5 (refine ser_bind_elim h (fun _ _ _ h => ?_))
  simp only [ser_pure_apply, Option.some.injEq, Prod.mk.injEq] at h
  obtain ⟨rfl, -⟩ := h
  exact ⟨rfl, rfl, rfl⟩

end Partitioner2
